import Mathlib

/-! Work queues of the OSD (`src/osd/OSD.h`) and three leaf utilities.

A shallow embedding of the specialised work queues declared in `OSD.h`
(`CommandWQ`, `RecoveryWQ`, `SnapTrimWQ`, `ScrubWQ`, `ScrubFinalizeWQ`,
`RepScrubWQ`, `RemoveWQ`, `OpWQ`) and of the `pg_stat_queue` helpers, of the
waiter lists, of the failure and scrub registries, of `filter_xattrs`, of the
epoch cache and of the names of the map objects; of `IndexManager::build_index`
(`src/os/IndexManager.cc`), of `RGWFormatter_Plain` (`src/rgw/rgw_formats.cc`)
and of `ObjectCache` (`src/rgw/rgw_cache.cc`); followed by the properties proved
about them.

Objects that the C++ code handles through pointers (`PG*`, `Command*`,
`MOSDRepScrub*`) are represented by their identity, a natural number.  The
reference counter of a PG (`get()` / `put()`) is an integer indexed by that
identity.  Locks are not represented: every function below is the body that
runs while the queue's lock is held.
-/

set_option autoImplicit false
set_option linter.unnecessarySeqFocus false

/-- A `PG*`: the identity of a placement-group object. -/
abbrev PG := Nat

/-- A `Command*` held by `command_queue`. -/
abbrev Command := Nat

/-- A `MOSDRepScrub*` held by `rep_scrub_queue`. -/
abbrev MOSDRepScrub := Nat

/-- The effect of `pg->get()` on the table of reference counters. -/
def PG.get (nref : PG → Int) (pg : PG) : PG → Int :=
  fun p => if p = pg then nref p + 1 else nref p

/-- The effect of `pg->put()` on the table of reference counters (the
deallocation that happens when the counter reaches zero is not represented). -/
def PG.put (nref : PG → Int) (pg : PG) : PG → Int :=
  fun p => if p = pg then nref p - 1 else nref p

/-! The intrusive list `xlist`.

`include/xlist.h` is not part of the sources at hand.  An `xlist<PG*>` is an
intrusive doubly linked list: every PG embeds one `xlist<PG*>::item` per queue
(`recovery_item`, `snap_trim_item`, `scrub_item`, `scrub_finalize_item`,
`remove_item`, `stat_queue_item`) and that item is only ever linked into the
matching queue.  The list is represented by the sequence of PGs whose item is
linked, front first; an item "is on a list" when its PG is in that sequence.
-/
namespace xlist

/-- Modelled from the spec: `xlist<T>::item::is_on_list()` of `include/xlist.h`
(absent); the item of `pg` is linked into the queue ("a partition is linked
into at most one position in each specialized queue"). -/
def is_on_list (l : List PG) (pg : PG) : Bool := decide (pg ∈ l)

/-- Modelled from the spec: `xlist<T>::push_back` of `include/xlist.h` (absent);
links the item at the back. -/
def push_back (l : List PG) (pg : PG) : List PG := l ++ [pg]

/-- Modelled from the spec: `xlist<T>::item::remove_myself()` of
`include/xlist.h` (absent); unlinks the item if it is linked and tells whether
it was. -/
def remove_myself (l : List PG) (pg : PG) : Bool × List PG :=
  if pg ∈ l then (true, l.erase pg) else (false, l)

/-- Modelled from the spec: `xlist<T>::empty()` of `include/xlist.h` (absent). -/
def empty (l : List PG) : Bool := l.isEmpty

/-- Modelled from the spec: `xlist<T>::front()` of `include/xlist.h` (absent). -/
def front (l : List PG) : Option PG := l.head?

/-- Modelled from the spec: `xlist<T>::pop_front()` of `include/xlist.h`
(absent); unlinks the front item. -/
def pop_front (l : List PG) : List PG := l.tail

/-- Modelled from the spec: `xlist<T>::clear()` of `include/xlist.h` (absent);
unlinks every item.  The list knows nothing about reference counters. -/
def clear (_l : List PG) : List PG := []

end xlist

/-- The members of `OSD` (and of the queue objects nested in it) that the work
queues read and write.  `utime_t` is the type of `defer_recovery_until`
(`include/utime.h` is not part of the sources at hand). -/
structure OSD (utime_t : Type) where
  /-- The reference counter of every PG. -/
  nref : PG → Int
  /-- The value of `pg->is_primary()`. -/
  is_primary : PG → Bool
  pg_stat_queue : List PG
  osd_stat_updated : Bool
  command_queue : List Command
  recovery_queue : List PG
  defer_recovery_until : utime_t
  snap_trim_queue : List PG
  scrub_queue : List PG
  /-- The member `scrub_finalize_queue` of `ScrubFinalizeWQ`. -/
  scrub_finalize_queue : List PG
  /-- The member `rep_scrub_queue` of `RepScrubWQ`. -/
  rep_scrub_queue : List MOSDRepScrub
  remove_queue : List PG

/-- What `RecoveryWQ::_enqueue` reads from the configuration and from the time
library: the option `g_conf->osd_recovery_delay_start` (its type `D` is declared
in `common/config_opts.h`, absent), the test `> 0` on it, and
`utime_t::operator+=`. -/
structure RecoveryDelay (utime_t D : Type) where
  osd_recovery_delay_start : D
  gt_zero : D → Bool
  plus : utime_t → D → utime_t

namespace OSD

variable {utime_t D : Type}

/-! ### `pg_stat_queue` -/

/-- `OSD::pg_stat_queue_enqueue`. -/
def pg_stat_queue_enqueue (osd : OSD utime_t) (pg : PG) : OSD utime_t :=
  let osd :=
    if osd.is_primary pg && !xlist.is_on_list osd.pg_stat_queue pg then
      let osd := { osd with nref := PG.get osd.nref pg }
      { osd with pg_stat_queue := xlist.push_back osd.pg_stat_queue pg }
    else osd
  { osd with osd_stat_updated := true }

/-- `OSD::pg_stat_queue_dequeue`. -/
def pg_stat_queue_dequeue (osd : OSD utime_t) (pg : PG) : OSD utime_t :=
  let r := xlist.remove_myself osd.pg_stat_queue pg
  let osd := { osd with pg_stat_queue := r.2 }
  if r.1 then { osd with nref := PG.put osd.nref pg } else osd

/-! ### `CommandWQ` -/

/-- `OSD::CommandWQ::_empty`. -/
def CommandWQ._empty (osd : OSD utime_t) : Bool := osd.command_queue.isEmpty

/-- `OSD::CommandWQ::_enqueue`. -/
def CommandWQ._enqueue (osd : OSD utime_t) (c : Command) : Bool × OSD utime_t :=
  (true, { osd with command_queue := osd.command_queue ++ [c] })

/-- `OSD::CommandWQ::_dequeue()`; `none` is the `NULL` result. -/
def CommandWQ._dequeue (osd : OSD utime_t) : Option Command × OSD utime_t :=
  if osd.command_queue.isEmpty then (none, osd)
  else
    let c := osd.command_queue.head?
    (c, { osd with command_queue := osd.command_queue.tail })

/-! ### `RecoveryWQ` -/

/-- `OSD::RecoveryWQ::_empty`. -/
def RecoveryWQ._empty (osd : OSD utime_t) : Bool := xlist.empty osd.recovery_queue

/-- `OSD::RecoveryWQ::_enqueue`; `now` is the value of
`ceph_clock_now(g_ceph_context)`. -/
def RecoveryWQ._enqueue (conf : RecoveryDelay utime_t D) (now : utime_t)
    (osd : OSD utime_t) (pg : PG) : Bool × OSD utime_t :=
  if !xlist.is_on_list osd.recovery_queue pg then
    let osd := { osd with nref := PG.get osd.nref pg }
    let osd := { osd with recovery_queue := xlist.push_back osd.recovery_queue pg }
    let osd :=
      if conf.gt_zero conf.osd_recovery_delay_start then
        let osd := { osd with defer_recovery_until := now }
        { osd with defer_recovery_until :=
            conf.plus osd.defer_recovery_until conf.osd_recovery_delay_start }
      else osd
    (true, osd)
  else (false, osd)

/-- `OSD::RecoveryWQ::_dequeue(PG *pg)`. -/
def RecoveryWQ._dequeue_pg (osd : OSD utime_t) (pg : PG) : OSD utime_t :=
  let r := xlist.remove_myself osd.recovery_queue pg
  let osd := { osd with recovery_queue := r.2 }
  if r.1 then { osd with nref := PG.put osd.nref pg } else osd

/-- `OSD::RecoveryWQ::_dequeue()`; `recover_now` is the value that
`osd->_recover_now()` returns (its body is in `OSD.cc`, absent), `none` is the
`NULL` result. -/
def RecoveryWQ._dequeue (recover_now : Bool) (osd : OSD utime_t) :
    Option PG × OSD utime_t :=
  if xlist.empty osd.recovery_queue then (none, osd)
  else if !recover_now then (none, osd)
  else
    let pg := xlist.front osd.recovery_queue
    (pg, { osd with recovery_queue := xlist.pop_front osd.recovery_queue })

/-- The loop `while (!q.empty()) { pg = q.front(); q.pop_front(); pg->put(); }`
shared by the `_clear` functions: the reference counters once the queue `q` has
been emptied. -/
def clear_loop : List PG → (PG → Int) → (PG → Int)
  | [], nref => nref
  | pg :: rest, nref => clear_loop rest (PG.put nref pg)

/-- `OSD::RecoveryWQ::_clear`. -/
def RecoveryWQ._clear (osd : OSD utime_t) : OSD utime_t :=
  { osd with nref := clear_loop osd.recovery_queue osd.nref, recovery_queue := [] }

/-! ### `SnapTrimWQ` -/

/-- `OSD::SnapTrimWQ::_empty`. -/
def SnapTrimWQ._empty (osd : OSD utime_t) : Bool := xlist.empty osd.snap_trim_queue

/-- `OSD::SnapTrimWQ::_enqueue`. -/
def SnapTrimWQ._enqueue (osd : OSD utime_t) (pg : PG) : Bool × OSD utime_t :=
  if xlist.is_on_list osd.snap_trim_queue pg then (false, osd)
  else
    let osd := { osd with nref := PG.get osd.nref pg }
    (true, { osd with snap_trim_queue := xlist.push_back osd.snap_trim_queue pg })

/-- `OSD::SnapTrimWQ::_dequeue(PG *pg)`. -/
def SnapTrimWQ._dequeue_pg (osd : OSD utime_t) (pg : PG) : OSD utime_t :=
  let r := xlist.remove_myself osd.snap_trim_queue pg
  let osd := { osd with snap_trim_queue := r.2 }
  if r.1 then { osd with nref := PG.put osd.nref pg } else osd

/-- `OSD::SnapTrimWQ::_dequeue()`. -/
def SnapTrimWQ._dequeue (osd : OSD utime_t) : Option PG × OSD utime_t :=
  if xlist.empty osd.snap_trim_queue then (none, osd)
  else
    let pg := xlist.front osd.snap_trim_queue
    (pg, { osd with snap_trim_queue := xlist.pop_front osd.snap_trim_queue })

/-- `OSD::SnapTrimWQ::_clear`: only `osd->snap_trim_queue.clear()`. -/
def SnapTrimWQ._clear (osd : OSD utime_t) : OSD utime_t :=
  { osd with snap_trim_queue := xlist.clear osd.snap_trim_queue }

/-! ### `ScrubWQ` -/

/-- `OSD::ScrubWQ::_empty`. -/
def ScrubWQ._empty (osd : OSD utime_t) : Bool := xlist.empty osd.scrub_queue

/-- `OSD::ScrubWQ::_enqueue`. -/
def ScrubWQ._enqueue (osd : OSD utime_t) (pg : PG) : Bool × OSD utime_t :=
  if xlist.is_on_list osd.scrub_queue pg then (false, osd)
  else
    let osd := { osd with nref := PG.get osd.nref pg }
    (true, { osd with scrub_queue := xlist.push_back osd.scrub_queue pg })

/-- `OSD::ScrubWQ::_dequeue(PG *pg)`. -/
def ScrubWQ._dequeue_pg (osd : OSD utime_t) (pg : PG) : OSD utime_t :=
  let r := xlist.remove_myself osd.scrub_queue pg
  let osd := { osd with scrub_queue := r.2 }
  if r.1 then { osd with nref := PG.put osd.nref pg } else osd

/-- `OSD::ScrubWQ::_dequeue()`. -/
def ScrubWQ._dequeue (osd : OSD utime_t) : Option PG × OSD utime_t :=
  if xlist.empty osd.scrub_queue then (none, osd)
  else
    let pg := xlist.front osd.scrub_queue
    (pg, { osd with scrub_queue := xlist.pop_front osd.scrub_queue })

/-- `OSD::ScrubWQ::_clear`. -/
def ScrubWQ._clear (osd : OSD utime_t) : OSD utime_t :=
  { osd with nref := clear_loop osd.scrub_queue osd.nref, scrub_queue := [] }

/-! ### `ScrubFinalizeWQ` -/

/-- `OSD::ScrubFinalizeWQ::_empty`. -/
def ScrubFinalizeWQ._empty (osd : OSD utime_t) : Bool :=
  xlist.empty osd.scrub_finalize_queue

/-- `OSD::ScrubFinalizeWQ::_enqueue`. -/
def ScrubFinalizeWQ._enqueue (osd : OSD utime_t) (pg : PG) : Bool × OSD utime_t :=
  if xlist.is_on_list osd.scrub_finalize_queue pg then (false, osd)
  else
    let osd := { osd with nref := PG.get osd.nref pg }
    (true, { osd with
      scrub_finalize_queue := xlist.push_back osd.scrub_finalize_queue pg })

/-- `OSD::ScrubFinalizeWQ::_dequeue(PG *pg)`. -/
def ScrubFinalizeWQ._dequeue_pg (osd : OSD utime_t) (pg : PG) : OSD utime_t :=
  let r := xlist.remove_myself osd.scrub_finalize_queue pg
  let osd := { osd with scrub_finalize_queue := r.2 }
  if r.1 then { osd with nref := PG.put osd.nref pg } else osd

/-- `OSD::ScrubFinalizeWQ::_dequeue()`. -/
def ScrubFinalizeWQ._dequeue (osd : OSD utime_t) : Option PG × OSD utime_t :=
  if xlist.empty osd.scrub_finalize_queue then (none, osd)
  else
    let pg := xlist.front osd.scrub_finalize_queue
    (pg, { osd with
      scrub_finalize_queue := xlist.pop_front osd.scrub_finalize_queue })

/-- `OSD::ScrubFinalizeWQ::_clear`. -/
def ScrubFinalizeWQ._clear (osd : OSD utime_t) : OSD utime_t :=
  { osd with nref := clear_loop osd.scrub_finalize_queue osd.nref,
             scrub_finalize_queue := [] }

/-! ### `RepScrubWQ` -/

/-- `OSD::RepScrubWQ::_empty`. -/
def RepScrubWQ._empty (osd : OSD utime_t) : Bool := osd.rep_scrub_queue.isEmpty

/-- `OSD::RepScrubWQ::_enqueue`. -/
def RepScrubWQ._enqueue (osd : OSD utime_t) (msg : MOSDRepScrub) :
    Bool × OSD utime_t :=
  (true, { osd with rep_scrub_queue := osd.rep_scrub_queue ++ [msg] })

/-- `OSD::RepScrubWQ::_dequeue()`. -/
def RepScrubWQ._dequeue (osd : OSD utime_t) : Option MOSDRepScrub × OSD utime_t :=
  if osd.rep_scrub_queue.isEmpty then (none, osd)
  else
    let msg := osd.rep_scrub_queue.head?
    (msg, { osd with rep_scrub_queue := osd.rep_scrub_queue.tail })

/-! ### `RemoveWQ` -/

/-- `OSD::RemoveWQ::_empty`. -/
def RemoveWQ._empty (osd : OSD utime_t) : Bool := xlist.empty osd.remove_queue

/-- `OSD::RemoveWQ::_enqueue`. -/
def RemoveWQ._enqueue (osd : OSD utime_t) (pg : PG) : Bool × OSD utime_t :=
  if xlist.is_on_list osd.remove_queue pg then (false, osd)
  else
    let osd := { osd with nref := PG.get osd.nref pg }
    (true, { osd with remove_queue := xlist.push_back osd.remove_queue pg })

/-- `OSD::RemoveWQ::_dequeue(PG *pg)`. -/
def RemoveWQ._dequeue_pg (osd : OSD utime_t) (pg : PG) : OSD utime_t :=
  let r := xlist.remove_myself osd.remove_queue pg
  let osd := { osd with remove_queue := r.2 }
  if r.1 then { osd with nref := PG.put osd.nref pg } else osd

/-- `OSD::RemoveWQ::_dequeue()`. -/
def RemoveWQ._dequeue (osd : OSD utime_t) : Option PG × OSD utime_t :=
  if xlist.empty osd.remove_queue then (none, osd)
  else
    let pg := xlist.front osd.remove_queue
    (pg, { osd with remove_queue := xlist.pop_front osd.remove_queue })

/-- `OSD::RemoveWQ::_clear`. -/
def RemoveWQ._clear (osd : OSD utime_t) : OSD utime_t :=
  { osd with nref := clear_loop osd.remove_queue osd.nref, remove_queue := [] }

/-! ### The queues as a family -/

end OSD

/-- The work queues of `OSD.h` that hold PGs through an `xlist<PG*>`. -/
inductive PGQueue where
  | recovery
  | snap_trim
  | scrub
  | scrub_finalize
  | remove
  deriving DecidableEq, Repr

/-- The work queues of `OSD.h` that own a container: the five PG queues,
`CommandWQ` and `RepScrubWQ`. -/
inductive WorkQueue where
  | pg (w : PGQueue)
  | command
  | rep_scrub
  deriving DecidableEq, Repr

namespace OSD

variable {utime_t D : Type}

/-- The container of a PG queue. -/
def queue_of : PGQueue → OSD utime_t → List PG
  | .recovery, osd => osd.recovery_queue
  | .snap_trim, osd => osd.snap_trim_queue
  | .scrub, osd => osd.scrub_queue
  | .scrub_finalize, osd => osd.scrub_finalize_queue
  | .remove, osd => osd.remove_queue

/-- `_enqueue(pg)` of the given PG queue. -/
def wq_enqueue (conf : RecoveryDelay utime_t D) (now : utime_t) :
    PGQueue → OSD utime_t → PG → Bool × OSD utime_t
  | .recovery => RecoveryWQ._enqueue conf now
  | .snap_trim => SnapTrimWQ._enqueue
  | .scrub => ScrubWQ._enqueue
  | .scrub_finalize => ScrubFinalizeWQ._enqueue
  | .remove => RemoveWQ._enqueue

/-- `_dequeue(pg)` of the given PG queue. -/
def wq_dequeue_pg : PGQueue → OSD utime_t → PG → OSD utime_t
  | .recovery => RecoveryWQ._dequeue_pg
  | .snap_trim => SnapTrimWQ._dequeue_pg
  | .scrub => ScrubWQ._dequeue_pg
  | .scrub_finalize => ScrubFinalizeWQ._dequeue_pg
  | .remove => RemoveWQ._dequeue_pg

/-- `_dequeue()` of the given PG queue; `recover_now` is only read by
`RecoveryWQ`. -/
def wq_dequeue (recover_now : Bool) : PGQueue → OSD utime_t → Option PG × OSD utime_t
  | .recovery => RecoveryWQ._dequeue recover_now
  | .snap_trim => SnapTrimWQ._dequeue
  | .scrub => ScrubWQ._dequeue
  | .scrub_finalize => ScrubFinalizeWQ._dequeue
  | .remove => RemoveWQ._dequeue

/-- `_clear()` of the given PG queue. -/
def wq_clear : PGQueue → OSD utime_t → OSD utime_t
  | .recovery => RecoveryWQ._clear
  | .snap_trim => SnapTrimWQ._clear
  | .scrub => ScrubWQ._clear
  | .scrub_finalize => ScrubFinalizeWQ._clear
  | .remove => RemoveWQ._clear

/-- The container of any of the seven queues, front first. -/
def items : WorkQueue → OSD utime_t → List Nat
  | .pg w, osd => queue_of w osd
  | .command, osd => osd.command_queue
  | .rep_scrub, osd => osd.rep_scrub_queue

/-- `_enqueue(x)` of any of the seven queues. -/
def enqueue (conf : RecoveryDelay utime_t D) (now : utime_t) :
    WorkQueue → OSD utime_t → Nat → Bool × OSD utime_t
  | .pg w => wq_enqueue conf now w
  | .command => CommandWQ._enqueue
  | .rep_scrub => RepScrubWQ._enqueue

/-- `_dequeue()` of any of the seven queues. -/
def dequeue (recover_now : Bool) : WorkQueue → OSD utime_t → Option Nat × OSD utime_t
  | .pg w => wq_dequeue recover_now w
  | .command => CommandWQ._dequeue
  | .rep_scrub => RepScrubWQ._dequeue

end OSD

/-! ## Sequences of calls -/

/-- A call on one of the PG queues: `_enqueue(pg)`, `_dequeue(pg)`, `_dequeue()`
or `_clear()`.  `now` is the clock value read by `RecoveryWQ::_enqueue`,
`recover_now` the admission gate read by `RecoveryWQ::_dequeue()`. -/
inductive QueueCall (utime_t : Type) where
  | enqueue (w : PGQueue) (pg : PG) (now : utime_t)
  | dequeue_pg (w : PGQueue) (pg : PG)
  | dequeue (w : PGQueue) (recover_now : Bool)
  | clear (w : PGQueue)

/-- A call that links or unlinks a given PG: `_enqueue(pg)` / `_dequeue(pg)` on a
PG queue, `pg_stat_queue_enqueue(pg)` / `pg_stat_queue_dequeue(pg)`. -/
inductive LinkCall (utime_t : Type) where
  | enqueue (w : PGQueue) (pg : PG) (now : utime_t)
  | dequeue_pg (w : PGQueue) (pg : PG)
  | pg_stat_queue_enqueue (pg : PG)
  | pg_stat_queue_dequeue (pg : PG)

/-- A call of the producer/consumer interface of a queue: `_enqueue(x)` or
`_dequeue()`. -/
inductive FifoCall (utime_t : Type) where
  | enqueue (x : Nat) (now : utime_t)
  | dequeue (recover_now : Bool)

/-- A state together with what has been observed at one queue so far: the items
whose `_enqueue` returned true and the non-null items returned by
`_dequeue()`, both oldest first. -/
structure FifoTrace (utime_t : Type) where
  osd : OSD utime_t
  enqueued : List Nat
  dequeued : List Nat

namespace OSD

variable {utime_t D : Type}

/-- The state after one `QueueCall`. -/
def apply_call (conf : RecoveryDelay utime_t D) (osd : OSD utime_t) :
    QueueCall utime_t → OSD utime_t
  | .enqueue w pg now => (wq_enqueue conf now w osd pg).2
  | .dequeue_pg w pg => wq_dequeue_pg w osd pg
  | .dequeue w recover_now => (wq_dequeue recover_now w osd).2
  | .clear w => wq_clear w osd

/-- The state after a sequence of `QueueCall`s, first call first. -/
def run_calls (conf : RecoveryDelay utime_t D) (osd : OSD utime_t)
    (calls : List (QueueCall utime_t)) : OSD utime_t :=
  calls.foldl (apply_call conf) osd

/-- The state after one `LinkCall`. -/
def apply_link (conf : RecoveryDelay utime_t D) (osd : OSD utime_t) :
    LinkCall utime_t → OSD utime_t
  | .enqueue w pg now => (wq_enqueue conf now w osd pg).2
  | .dequeue_pg w pg => wq_dequeue_pg w osd pg
  | .pg_stat_queue_enqueue pg => pg_stat_queue_enqueue osd pg
  | .pg_stat_queue_dequeue pg => pg_stat_queue_dequeue osd pg

/-- The state after a sequence of `LinkCall`s, first call first. -/
def run_links (conf : RecoveryDelay utime_t D) (osd : OSD utime_t)
    (calls : List (LinkCall utime_t)) : OSD utime_t :=
  calls.foldl (apply_link conf) osd

/-- The number of queues (recovery, snap-trim, scrub, scrub-finalize, remove,
pg-stat) that currently link `p`. -/
def link_count (osd : OSD utime_t) (p : PG) : Nat :=
  (if p ∈ osd.recovery_queue then 1 else 0) +
  (if p ∈ osd.snap_trim_queue then 1 else 0) +
  (if p ∈ osd.scrub_queue then 1 else 0) +
  (if p ∈ osd.scrub_finalize_queue then 1 else 0) +
  (if p ∈ osd.remove_queue then 1 else 0) +
  (if p ∈ osd.pg_stat_queue then 1 else 0)

/-- The number of positions, over the same six queues, at which `p` is linked
(a queue that listed `p` twice would count twice). -/
def occurrences (osd : OSD utime_t) (p : PG) : Nat :=
  (queue_of .recovery osd).count p + (queue_of .snap_trim osd).count p +
  (queue_of .scrub osd).count p + (queue_of .scrub_finalize osd).count p +
  (queue_of .remove osd).count p + osd.pg_stat_queue.count p

/-- One `FifoCall` on queue `w`, recording what it hands in or out. -/
def apply_fifo (conf : RecoveryDelay utime_t D) (w : WorkQueue)
    (t : FifoTrace utime_t) : FifoCall utime_t → FifoTrace utime_t
  | .enqueue x now =>
    let r := enqueue conf now w t.osd x
    { osd := r.2
      enqueued := if r.1 then t.enqueued ++ [x] else t.enqueued
      dequeued := t.dequeued }
  | .dequeue recover_now =>
    let r := dequeue recover_now w t.osd
    { osd := r.2
      enqueued := t.enqueued
      dequeued :=
        match r.1 with
        | some x => t.dequeued ++ [x]
        | none => t.dequeued }

/-- A sequence of `FifoCall`s on queue `w`, starting with nothing observed. -/
def run_fifo (conf : RecoveryDelay utime_t D) (w : WorkQueue) (osd : OSD utime_t)
    (calls : List (FifoCall utime_t)) : FifoTrace utime_t :=
  calls.foldl (apply_fifo conf w) { osd := osd, enqueued := [], dequeued := [] }

end OSD

/-! ## Concrete states -/

/-- A configuration with a start delay of 15, over integer clock values. -/
def delay15 : RecoveryDelay Int Int where
  osd_recovery_delay_start := 15
  gt_zero := fun d => decide (0 < d)
  plus := fun t d => t + d

/-- A state with every queue empty and one reference held on every PG. -/
def osd_idle : OSD Int where
  nref := fun _ => 1
  is_primary := fun _ => true
  pg_stat_queue := []
  osd_stat_updated := false
  command_queue := []
  recovery_queue := []
  defer_recovery_until := 0
  snap_trim_queue := []
  scrub_queue := []
  scrub_finalize_queue := []
  rep_scrub_queue := []
  remove_queue := []

/-- A state in which PG 7 waits in the snap-trim queue and in the scrub queue
(behind nobody, before PG 8), command 5 and replica-scrub message 6 are queued,
and every PG carries one reference besides those of the queues that link it. -/
def osd_busy : OSD Int where
  nref := fun p => if p = 7 then 3 else if p = 8 then 2 else 1
  is_primary := fun _ => true
  pg_stat_queue := []
  osd_stat_updated := false
  command_queue := [5]
  recovery_queue := []
  defer_recovery_until := 0
  snap_trim_queue := [7]
  scrub_queue := [7, 8]
  scrub_finalize_queue := []
  rep_scrub_queue := [6]
  remove_queue := []

/-! ## Assertions, waiters, failure reports, scrub registry, attribute filter -/

/-- How a function that contains an `assert` ends: it ran to its end and left
state `s`, or an assertion failed (the process aborts) with the state being `s`
at that point. -/
inductive Outcome (σ : Type) where
  | done (s : σ)
  | assert_failed (s : σ)
  deriving DecidableEq, Repr

/-- An `OpRequest*`: the identity of an operation handle. -/
abbrev OpRequest := Nat

/-- A `pg_t`; only its identity and its order (the key order of
`waiting_for_pg`) are used. -/
abbrev pg_t := Nat

/-! A `std::set<T>` is represented by the list of its elements in ascending order. -/
namespace stdset

variable {α : Type} [LinearOrder α]

/-- `std::set<T>::insert(x)`: `x` is put at its place unless an equal element
is met first. -/
def insert (x : α) : List α → List α
  | [] => [x]
  | y :: ys =>
    if x < y then x :: y :: ys
    else if x = y then y :: ys
    else y :: insert x ys

/-- `std::set<T>::count(x)`. -/
def count (l : List α) (x : α) : Nat := if x ∈ l then 1 else 0

/-- `std::set<T>::erase(x)`: every element equal to `x` goes. -/
def erase (l : List α) (x : α) : List α := l.filter (fun y => y ≠ x)

end stdset

/-! A `std::map<K, V>` is represented by the list of its entries in ascending key
order. -/
namespace stdmap

variable {K V : Type} [DecidableEq K]

/-- `std::map<K,V>::count(k)`. -/
def count (m : List (K × V)) (k : K) : Nat := if (m.find? (fun e => e.1 = k)).isSome then 1 else 0

/-- The value that `m[k]` refers to, for a key that is present (`dflt` stands for
the value-initialised entry that `operator[]` would create otherwise). -/
def at_key (m : List (K × V)) (k : K) (dflt : V) : V :=
  match m.find? (fun e => e.1 = k) with
  | some e => e.2
  | none => dflt

/-- Writing through the reference `m[k]`, for a key that is present. -/
def assign (m : List (K × V)) (k : K) (v : V) : List (K × V) :=
  m.map (fun e => if e.1 = k then (e.1, v) else e)

/-- `std::map<K,V>::erase(k)`. -/
def erase (m : List (K × V)) (k : K) : List (K × V) := m.filter (fun e => e.1 ≠ k)

end stdmap

/-- The waiter lists of `OSD`: `finished` and `waiting_for_pg`. -/
structure Waiters where
  finished : List OpRequest
  waiting_for_pg : List (pg_t × List OpRequest)
  deriving DecidableEq, Repr

namespace OSD

/-! ### `OpWQ` -/

/-- `OSD::OpWQ::_empty`, on the member `op_queue` of `OSD`. -/
def OpWQ._empty (op_queue : List PG) : Bool := op_queue.isEmpty

/-- `OSD::OpWQ::_clear`: `assert(osd->op_queue.empty())`. -/
def OpWQ._clear (op_queue : List PG) : Outcome (List PG) :=
  if OpWQ._empty op_queue then .done op_queue else .assert_failed op_queue

/-! ### Waiters -/

/-- `OSD::take_waiters`: `finished.splice(finished.end(), ls)`. The result is the
new `finished` and what is left in the caller's list `ls`. -/
def take_waiters (finished ls : List OpRequest) : List OpRequest × List OpRequest :=
  (finished ++ ls, [])

/-- `OSD::take_waiter`: `finished.push_back(op)`. -/
def take_waiter (finished : List OpRequest) (op : OpRequest) : List OpRequest :=
  finished ++ [op]

/-- `OSD::push_waiters`: `assert(osd_lock.is_locked())`, then
`finished.splice(finished.begin(), ls)`. The state is `finished` and the
caller's list `ls`; `osd_lock_is_locked` is the value of `osd_lock.is_locked()`. -/
def push_waiters (osd_lock_is_locked : Bool) (finished ls : List OpRequest) :
    Outcome (List OpRequest × List OpRequest) :=
  if osd_lock_is_locked then .done (ls ++ finished, [])
  else .assert_failed (finished, ls)

/-- `OSD::wake_pg_waiters`. -/
def wake_pg_waiters (w : Waiters) (pgid : pg_t) : Waiters :=
  if stdmap.count w.waiting_for_pg pgid ≠ 0 then
    let r := take_waiters w.finished (stdmap.at_key w.waiting_for_pg pgid [])
    let m := stdmap.assign w.waiting_for_pg pgid r.2
    { finished := r.1, waiting_for_pg := stdmap.erase m pgid }
  else w

/-- The loop of `OSD::wake_all_pg_waiters`: `take_waiters(p->second)` for every
entry from `begin()` on. The result is the new `finished` and the entries as the
loop leaves them. -/
def wake_all_loop : List OpRequest → List (pg_t × List OpRequest) →
    List OpRequest × List (pg_t × List OpRequest)
  | finished, [] => (finished, [])
  | finished, (pgid, ls) :: rest =>
    let r := take_waiters finished ls
    let t := wake_all_loop r.1 rest
    (t.1, (pgid, r.2) :: t.2)

/-- `OSD::wake_all_pg_waiters`. -/
def wake_all_pg_waiters (w : Waiters) : Waiters :=
  let t := wake_all_loop w.finished w.waiting_for_pg
  { finished := t.1, waiting_for_pg := [] }

/-- Every operation held by the waiter lists, `finished` first, then the
waiting lists in key order. -/
def Waiters.all_ops (w : Waiters) : List OpRequest :=
  w.finished ++ (w.waiting_for_pg.map Prod.snd).flatten

/-! ### Failure reports -/

/-- `OSD::queue_failure`, on the member `failure_queue` (a `set<int>`). -/
def queue_failure (failure_queue : List Int) (n : Int) : List Int :=
  stdset.insert n failure_queue

/-! ### Scrub registry -/

/-- `OSD::reg_last_pg_scrub`, on the member `last_scrub_pg`, a
`set< pair<utime_t,pg_t> >` ordered like `std::pair`, first by time. -/
def reg_last_pg_scrub {utime_t : Type} [LinearOrder utime_t]
    (last_scrub_pg : List (Lex (utime_t × pg_t))) (pgid : pg_t) (t : utime_t) :
    List (Lex (utime_t × pg_t)) :=
  stdset.insert (toLex (t, pgid)) last_scrub_pg

/-- `OSD::unreg_last_pg_scrub`. -/
def unreg_last_pg_scrub {utime_t : Type} [LinearOrder utime_t]
    (last_scrub_pg : List (Lex (utime_t × pg_t))) (pgid : pg_t) (t : utime_t) :
    Outcome (List (Lex (utime_t × pg_t))) :=
  let p : Lex (utime_t × pg_t) := toLex (t, pgid)
  if stdset.count last_scrub_pg p ≠ 0 then .done (stdset.erase last_scrub_pg p)
  else .assert_failed last_scrub_pg

/-! ### Attribute filter -/

/-- `OSD::filter_xattrs`, on the entries of `attrs` in key order. `none` is the
`std::out_of_range` that `iter->first.at(0)` throws on an empty name. -/
def filter_xattrs {V : Type} : List (String × V) → Option (List (String × V))
  | [] => some []
  | (name, v) :: rest =>
    match name.data.head? with
    | none => none
    | some c =>
      if (c != '_') || (name.length == 1) then filter_xattrs rest
      else (filter_xattrs rest).map (fun kept => (name, v) :: kept)

/-- A user attribute, in the words of the specification: the name starts with
`_` and is at least two characters long. -/
def is_user_xattr (name : String) : Bool :=
  (name.data.head? == some '_') && decide (2 ≤ name.length)

end OSD

/-- A state of the waiter lists: operation 1 is finished, operations 5 and 6 wait
for PG 2 and operation 7 waits for PG 3. -/
def waiters_two : Waiters where
  finished := [1]
  waiting_for_pg := [(2, [5, 6]), (3, [7])]

/-- A scrub registry over integer time stamps: PG 3 scrubbed at 10, PG 1 at 20. -/
def scrubs_two : List (Lex (Nat × pg_t)) := [toLex (10, 3), toLex (20, 1)]

/-! ## Epoch cache

`OSD.h` only declares `get_map`, `add_map` and `trim_map_cache`; their bodies
are in `OSD.cc`, which is absent. They are modelled on section 4.4 of the
specification. -/

/-- An `epoch_t`. -/
abbrev epoch_t := Nat

/-- Modelled from the spec: `OSDMap` (`osd/OSDMap.h`, absent), "an immutable,
versioned snapshot of cluster membership": its epoch and the members it lists. -/
structure OSDMap where
  epoch : epoch_t
  members : List Nat
  deriving DecidableEq, Repr

/-- Modelled from the spec: `OSDMap::Incremental` (`osd/OSDMap.h`, absent),
"incremental diffs chain consecutive epochs": the epoch the diff leads to, the
members it adds and the members it drops. -/
structure Incremental where
  epoch : epoch_t
  added : List Nat
  dropped : List Nat
  deriving DecidableEq, Repr

/-- Modelled from the spec: the members `map_cache` and `map_inc_bl` of `OSD`
(their use is in `OSD.cc`, absent), the "recent cluster-membership snapshots and
their incremental diffs, keyed by epoch number". -/
structure MapCache where
  map_cache : List OSDMap
  map_inc : List Incremental
  deriving DecidableEq, Repr

namespace OSD

/-- Modelled from the spec: the cached full snapshot of epoch `e` (`OSD.cc`,
absent), if there is one. -/
def cached_map (c : MapCache) (e : epoch_t) : Option OSDMap :=
  c.map_cache.find? (fun m => m.epoch = e)

/-- Modelled from the spec: the cached diff that leads to epoch `e` (`OSD.cc`,
absent), if there is one. -/
def cached_inc (c : MapCache) (e : epoch_t) : Option Incremental :=
  c.map_inc.find? (fun i => i.epoch = e)

/-- Modelled from the spec: replaying one diff on a snapshot
(`OSDMap::apply_incremental`, absent). -/
def apply_incremental (m : OSDMap) (inc : Incremental) : OSDMap :=
  { epoch := inc.epoch
    members := m.members.filter (fun x => x ∉ inc.dropped) ++ inc.added }

/-- Modelled from the spec: `OSD::trim_map_cache(oldest)` (`OSD.cc`, absent),
"evicting cached maps/diffs older than" `oldest`. -/
def trim_map_cache (oldest : epoch_t) (c : MapCache) : MapCache :=
  { map_cache := c.map_cache.filter (fun m => oldest ≤ m.epoch)
    map_inc := c.map_inc.filter (fun i => oldest ≤ i.epoch) }

/-- Modelled from the spec: `OSD::add_map` (`OSD.cc`, absent), "inserts a new
epoch, evicting cached maps/diffs older than the configured retention horizon
(`trim(oldest)`)"; `oldest` is that horizon. The cache holds one snapshot per
epoch. -/
def add_map (oldest : epoch_t) (o : OSDMap) (c : MapCache) : MapCache :=
  let c := trim_map_cache oldest c
  { c with map_cache := o :: c.map_cache.filter (fun m => m.epoch ≠ o.epoch) }

/-- Modelled from the spec: `OSD::get_map` (`OSD.cc`, absent), "returns the
cached snapshot or reconstructs it by replaying cached diffs from the nearest
older cached full snapshot"; `none` is the "not available" result. -/
def get_map (c : MapCache) : epoch_t → Option OSDMap
  | 0 => cached_map c 0
  | e + 1 =>
    match cached_map c (e + 1) with
    | some m => some m
    | none =>
      match get_map c e, cached_inc c (e + 1) with
      | some m, some inc => some (apply_incremental m inc)
      | _, _ => none

end OSD

/-- An epoch cache with the full snapshot of epoch 3 and the diffs that lead to
epochs 4 and 5. -/
def cache_three : MapCache where
  map_cache := [{ epoch := 3, members := [0, 1, 2] }]
  map_inc := [{ epoch := 4, added := [7], dropped := [1] },
              { epoch := 5, added := [], dropped := [0] }]

/-! ## Collection index (`src/os/IndexManager.cc`) -/

/-- The value of the errno constant `ENOENT`. -/
def ENOENT : Int := 2

namespace IndexManager

/-- The tags of `CollectionIndex` (`os/CollectionIndex.h` is absent); they label
the cases of one `switch`, so they are pairwise different. -/
structure IndexTags where
  FLAT_INDEX_TAG : Nat
  HASH_INDEX_TAG : Nat
  HASH_INDEX_TAG_2 : Nat
  deriving DecidableEq, Repr

/-- What `get_version` obtains from the collection's extended attribute: the
return value `r` of `do_getxattr` and, for `r >= 0`, the 32-bit value that
`::decode` reads from the bytes returned (both functions are only declared). -/
structure StoredVersion where
  r : Int
  decoded : Nat
  deriving DecidableEq, Repr

/-- The options of `g_conf` read by `build_index`. -/
structure Conf where
  filestore_update_collections : Bool
  filestore_merge_threshold : Int
  filestore_split_multiple : Int
  deriving DecidableEq, Repr

/-- The object that `build_index` stores into `*index`: `new FlatIndex(c, path)`
or `new HashIndex(c, path, merge_threshold, split_multiple, version)`. -/
inductive Index where
  | FlatIndex (c : Nat) (path : String)
  | HashIndex (c : Nat) (path : String) (merge_threshold split_multiple : Int)
      (version : Nat)
  deriving DecidableEq, Repr

/-- `get_version`: the return value and the content of `*version` afterwards;
`version` is the content of `*version` before the call. -/
def get_version (x : StoredVersion) (version : Nat) : Int × Nat :=
  if x.r < 0 then
    if x.r ≠ -ENOENT then (0, 0)
    else (x.r, version)
  else (0, x.decoded)

/-- `IndexManager::build_index`: the return value and the content of `*index`
afterwards (`index` before the call), or the failure of `assert(0)`. -/
def build_index (tags : IndexTags) (conf : Conf) (x : StoredVersion)
    (c : Nat) (path : String) (index : Option Index) : Outcome (Int × Option Index) :=
  if conf.filestore_update_collections then
    let rv := get_version x 0
    if rv.1 < 0 then .done (rv.1, index)
    else if rv.2 = tags.FLAT_INDEX_TAG then
      .done (0, some (.FlatIndex c path))
    else if rv.2 = tags.HASH_INDEX_TAG ∨ rv.2 = tags.HASH_INDEX_TAG_2 then
      .done (0, some (.HashIndex c path conf.filestore_merge_threshold
        conf.filestore_split_multiple rv.2))
    else .assert_failed (rv.1, index)
  else
    .done (0, some (.HashIndex c path conf.filestore_merge_threshold
      conf.filestore_split_multiple tags.HASH_INDEX_TAG_2))

end IndexManager

/-- Tags 0, 1 and 2 for the flat index and the two hash-index generations. -/
def tags012 : IndexManager.IndexTags where
  FLAT_INDEX_TAG := 0
  HASH_INDEX_TAG := 1
  HASH_INDEX_TAG_2 := 2

/-! ## Names of the map objects (`src/osd/OSD.h`) -/

namespace OSD

/-- The `int` that `%d` prints when it is handed the 32-bit unsigned `epoch`. -/
def int_of_u32 (epoch : epoch_t) : Int :=
  if epoch < 2 ^ 31 then (epoch : Int) else (epoch : Int) - 2 ^ 32

/-- The text that `%d` produces for an `int`. -/
def printf_d (i : Int) : List Char :=
  if i < 0 then '-' :: Nat.toDigits 10 i.natAbs else Nat.toDigits 10 i.natAbs

/-- The string that `snprintf(foo, size, ...)` leaves in `foo` when the
formatted text is `text`: at most `size - 1` characters of it. -/
def snprintf (size : Nat) (text : List Char) : List Char := text.take (size - 1)

/-- `OSD::get_osdmap_pobject_name`: the name of the object returned. -/
def get_osdmap_pobject_name (epoch : epoch_t) : String :=
  String.mk (snprintf 20 ("osdmap.".toList ++ printf_d (int_of_u32 epoch)))

/-- `OSD::get_inc_osdmap_pobject_name`: the name of the object returned. -/
def get_inc_osdmap_pobject_name (epoch : epoch_t) : String :=
  String.mk (snprintf 20 ("inc_osdmap.".toList ++ printf_d (int_of_u32 epoch)))

end OSD

/-! ## Plain formatter (`src/rgw/rgw_formats.cc`)

The members `len` and `max_len` are C `int`s; the arithmetic on them is taken as
exact, that is, for buffers shorter than `2^31` bytes. Allocations succeed. A C
string is represented by the list of its characters, without the terminator. -/

/-- An entry of the section stack (`struct plain_stack_entry`). -/
structure plain_stack_entry where
  size : Nat
  is_array : Bool
  deriving DecidableEq, Repr

/-- The members of `RGWFormatter_Plain`. `buf` is `none` for `NULL`, else the C
string held by the buffer; the back of `stack` is the last element. -/
structure RGWFormatter_Plain where
  buf : Option (List Char)
  len : Nat
  max_len : Nat
  stack : List plain_stack_entry
  min_stack_level : Nat
  deriving DecidableEq, Repr

namespace RGWFormatter_Plain

/-- The macro `LARGE_SIZE`. -/
def LARGE_SIZE : Nat := 8192

/-- The macro `LARGE_ENOUGH_LEN`. -/
def LARGE_ENOUGH_LEN : Nat := 128

/-- The macro `LARGE_ENOUGH_BUF`. -/
def LARGE_ENOUGH_BUF : Nat := 4096

/-- `RGWFormatter_Plain::reset`. -/
def reset (_f : RGWFormatter_Plain) : RGWFormatter_Plain :=
  { buf := none, len := 0, max_len := 0, stack := [], min_stack_level := 0 }

/-- `RGWFormatter_Plain::flush`: the text sent to the stream and the state left. -/
def flush (f : RGWFormatter_Plain) : List Char × RGWFormatter_Plain :=
  match f.buf with
  | none => ([], f)
  | some text => (text, reset f)

/-- `RGWFormatter_Plain::get_len`. -/
def get_len (f : RGWFormatter_Plain) : Nat :=
  if f.len ≠ 0 then f.len - 1 else 0

/-- `RGWFormatter_Plain::write_data`; `text` is what the format and its arguments
expand to. `vsnprintf` returns `n = strlen(text)`; the loop stops at once with
`size = 128` when `n < 128`, else it retries once with `size = n + 1`; either
way `p` holds `text`. A fresh buffer is represented by the empty string: its
bytes are written by `strcpy` before they are read. -/
def write_data (f : RGWFormatter_Plain) (text : List Char) : RGWFormatter_Plain :=
  let n := text.length
  let size := if n < LARGE_ENOUGH_LEN then LARGE_ENOUGH_LEN else n + 1
  let f :=
    if f.buf.isNone then { f with max_len := max LARGE_ENOUGH_BUF size, buf := some [] }
    else f
  let f :=
    if f.len + size > f.max_len then { f with max_len := f.len + size + LARGE_ENOUGH_BUF }
    else f
  let pos := if f.len ≠ 0 then f.len - 1 else f.len
  { f with buf := some ((f.buf.getD []).take pos ++ text), len := pos + text.length + 1 }

/-- `RGWFormatter_Plain::write_raw_data`. -/
def write_raw_data (f : RGWFormatter_Plain) (data : List Char) : RGWFormatter_Plain :=
  write_data f data

/-- `RGWFormatter_Plain::open_array_section`. -/
def open_array_section (f : RGWFormatter_Plain) : RGWFormatter_Plain :=
  { f with stack := f.stack ++ [{ size := 0, is_array := true }] }

/-- `RGWFormatter_Plain::open_object_section`. -/
def open_object_section (f : RGWFormatter_Plain) : RGWFormatter_Plain :=
  { f with stack := f.stack ++ [{ size := 0, is_array := false }] }

/-- `RGWFormatter_Plain::close_section`; `none` when the stack is empty
(`pop_back` is then undefined). -/
def close_section (f : RGWFormatter_Plain) : Option RGWFormatter_Plain :=
  if f.stack.isEmpty then none else some { f with stack := f.stack.dropLast }

/-- `RGWFormatter_Plain::dump_format` (and `dump_string`); `text` is what the
format and its arguments expand to, `none` when the stack is empty
(`stack.back()` is then undefined). -/
def dump_format (f : RGWFormatter_Plain) (text : List Char) : Option RGWFormatter_Plain :=
  match f.stack.getLast? with
  | none => none
  | some entry =>
    let f := if f.min_stack_level = 0 then { f with min_stack_level := f.stack.length } else f
    let should_print := (f.stack.length == f.min_stack_level) && (entry.size == 0)
    let f := { f with stack := f.stack.dropLast ++ [{ entry with size := entry.size + 1 }] }
    if !should_print then some f
    else
      let buf := text.take (LARGE_SIZE - 1)
      if f.len ≠ 0 then some (write_data f ('\n' :: buf))
      else some (write_data f buf)

/-- `RGWFormatter_Plain::dump_value_int` (and `dump_unsigned`, `dump_int`,
`dump_float`); `text` is what the format and the value expand to, `none` when
the stack is empty. -/
def dump_value_int (f : RGWFormatter_Plain) (text : List Char) :
    Option RGWFormatter_Plain :=
  let f := if f.min_stack_level = 0 then { f with min_stack_level := f.stack.length } else f
  match f.stack.getLast? with
  | none => none
  | some entry =>
    let should_print := (f.stack.length == f.min_stack_level) && (entry.size == 0)
    let f := { f with stack := f.stack.dropLast ++ [{ entry with size := entry.size + 1 }] }
    if !should_print then some f
    else
      let buf := text.take (LARGE_SIZE - 1)
      let eol := if f.len ≠ 0 then ['\n'] else []
      some (write_data f (eol ++ buf))

/-- The relation between `len` and the buffer: nothing has been written, or
`len` counts the text held and its terminator. -/
def len_matches_buf (f : RGWFormatter_Plain) : Prop :=
  (f.len = 0 ∧ f.buf = none) ∨ ∃ s, f.buf = some s ∧ f.len = s.length + 1

/-- A call on the formatter. -/
inductive Call where
  | reset
  | open_array_section
  | open_object_section
  | close_section
  | dump_format (text : List Char)
  | dump_value_int (text : List Char)
  | write_raw_data (data : List Char)
  deriving DecidableEq, Repr

/-- The state after one call, `none` when the call is undefined. -/
def apply_call (f : RGWFormatter_Plain) : Call → Option RGWFormatter_Plain
  | .reset => some (reset f)
  | .open_array_section => some (open_array_section f)
  | .open_object_section => some (open_object_section f)
  | .close_section => close_section f
  | .dump_format text => dump_format f text
  | .dump_value_int text => dump_value_int f text
  | .write_raw_data data => some (write_raw_data f data)

/-- The state after a sequence of calls, first call first. -/
def run (f : RGWFormatter_Plain) : List Call → Option RGWFormatter_Plain
  | [] => some f
  | c :: rest =>
    match apply_call f c with
    | none => none
    | some g => run g rest

end RGWFormatter_Plain

/-- The formatter as its constructor leaves it. -/
def formatter_new : RGWFormatter_Plain where
  buf := none
  len := 0
  max_len := 0
  stack := []
  min_stack_level := 0

/-- The formatter after an object section was opened, `ab` dumped as its first
value, a second value dumped (not printed) and `xyz` written raw. -/
def formatter_abxyz : RGWFormatter_Plain where
  buf := some ['a', 'b', 'x', 'y', 'z']
  len := 6
  max_len := 4096
  stack := [{ size := 2, is_array := false }]
  min_stack_level := 1

/-! ## Object cache (`src/rgw/rgw_cache.cc`)

`rgw/rgw_cache.h` is absent: the classes below list the members that
`rgw_cache.cc` uses, and the flag constants are parameters. `cache_map` and the
`xattrs` maps are only searched, written and erased by key here, so their
entries are listed in the order in which the keys were inserted. A node of the
list `lru` is represented by its identity and the name it holds; an iterator of
`lru` is the identity of the node it designates, or `none` for `lru.end()`. -/

/-- The constants `CACHE_FLAG_*` of `rgw/rgw_cache.h` (absent). -/
structure CacheFlags where
  CACHE_FLAG_DATA : Nat
  CACHE_FLAG_XATTRS : Nat
  CACHE_FLAG_META : Nat
  CACHE_FLAG_APPEND_XATTRS : Nat
  deriving DecidableEq, Repr

/-- The member `meta` of `ObjectCacheInfo`. -/
structure ObjectMetaInfo where
  size : Nat
  mtime : Nat
  deriving DecidableEq, Repr

/-- `ObjectCacheInfo`: `status`, the 32-bit `flags`, `data`, `xattrs`, `meta`. -/
structure ObjectCacheInfo where
  status : Int
  flags : Nat
  data : List Nat
  xattrs : List (String × List Nat)
  meta : ObjectMetaInfo
  deriving DecidableEq, Repr

/-- `ObjectCacheEntry`: the cached information and the iterator into `lru`. -/
structure ObjectCacheEntry where
  info : ObjectCacheInfo
  lru_iter : Option Nat
  deriving DecidableEq, Repr

/-- The members of `ObjectCache`; `next_node` is the identity that the next
node created by `lru.push_back` receives. -/
structure ObjectCache where
  cache_map : List (String × ObjectCacheEntry)
  lru : List (Nat × String)
  next_node : Nat
  deriving DecidableEq, Repr

namespace stdmap

variable {K V : Type} [DecidableEq K]

/-- `std::map<K,V>::find(k)`: the mapped value, `none` for `end()`. -/
def find (m : List (K × V)) (k : K) : Option V :=
  (m.find? (fun e => e.1 = k)).map Prod.snd

/-- The assignment `m[k] = v`, which creates the entry when there is none. -/
def set (m : List (K × V)) (k : K) (v : V) : List (K × V) :=
  if (find m k).isSome then assign m k v else m ++ [(k, v)]

end stdmap

namespace ObjectCache

/-- The complement `~x` of a 32-bit word. -/
def not32 (x : Nat) : Nat := (2 ^ 32 - 1) ^^^ x

/-- A value-initialised `ObjectCacheInfo` (status 0, no flag). -/
def new_info : ObjectCacheInfo where
  status := 0
  flags := 0
  data := []
  xattrs := []
  meta := { size := 0, mtime := 0 }

/-- The `while` loop of `ObjectCache::touch_lru`, on `lru` and `cache_map`; `L` is
`(size_t)g_conf->rgw_cache_lru_size`. -/
def touch_lru_loop (L : Nat) (name : String) :
    List (Nat × String) → List (String × ObjectCacheEntry) →
    List (Nat × String) × List (String × ObjectCacheEntry)
  | [], cache_map => ([], cache_map)
  | node :: rest, cache_map =>
    if (node :: rest).length > L then
      if node.2 = name then (node :: rest, cache_map)
      else touch_lru_loop L name rest (stdmap.erase cache_map node.2)
    else (node :: rest, cache_map)

/-- `ObjectCache::touch_lru`: the cache and the value of `lru_iter` afterwards.
In both branches `lru_iter` ends on the node pushed at the back. -/
def touch_lru (L : Nat) (c : ObjectCache) (name : String) (lru_iter : Option Nat) :
    ObjectCache × Option Nat :=
  let r := touch_lru_loop L name c.lru c.cache_map
  match lru_iter with
  | none =>
    ({ cache_map := r.2, lru := r.1 ++ [(c.next_node, name)],
       next_node := c.next_node + 1 }, some c.next_node)
  | some n =>
    let lru := r.1.filter (fun node => node.1 ≠ n)
    ({ cache_map := r.2, lru := lru ++ [(c.next_node, name)],
       next_node := c.next_node + 1 }, some c.next_node)

/-- `ObjectCache::remove_lru`: the list `lru` afterwards. -/
def remove_lru (lru : List (Nat × String)) (lru_iter : Option Nat) : List (Nat × String) :=
  match lru_iter with
  | none => lru
  | some n => lru.filter (fun node => node.1 ≠ n)

/-- `ObjectCache::get`: the return value, the content of `info` afterwards and
the cache afterwards. -/
def get (L : Nat) (c : ObjectCache) (name : String) (info : ObjectCacheInfo)
    (mask : Nat) : Int × ObjectCacheInfo × ObjectCache :=
  match stdmap.find c.cache_map name with
  | none => (-ENOENT, info, c)
  | some entry =>
    let t := touch_lru L c name entry.lru_iter
    let entry := { entry with lru_iter := t.2 }
    let c := { t.1 with cache_map := stdmap.assign t.1.cache_map name entry }
    let src := entry.info
    if (src.flags &&& mask) ≠ mask then (-ENOENT, info, c)
    else (0, src, c)

/-- The part of `ObjectCache::put` that writes `info` into `target`. -/
def put_info (fl : CacheFlags) (target info : ObjectCacheInfo) : ObjectCacheInfo :=
  let target := { target with status := info.status }
  if info.status < 0 then
    { target with flags := 0, xattrs := [], data := [] }
  else
    let target := { target with flags := target.flags ||| info.flags }
    let target :=
      if info.flags &&& fl.CACHE_FLAG_META ≠ 0 then { target with meta := info.meta }
      else { target with flags := target.flags &&& not32 fl.CACHE_FLAG_META }
    let target :=
      if info.flags &&& fl.CACHE_FLAG_XATTRS ≠ 0 then { target with xattrs := info.xattrs }
      else if info.flags &&& fl.CACHE_FLAG_APPEND_XATTRS ≠ 0 then
        { target with
          xattrs := info.xattrs.foldl (fun m e => stdmap.set m e.1 e.2) target.xattrs }
      else target
    if info.flags &&& fl.CACHE_FLAG_DATA ≠ 0 then { target with data := info.data }
    else target

/-- `ObjectCache::put`. -/
def put (fl : CacheFlags) (L : Nat) (c : ObjectCache) (name : String)
    (info : ObjectCacheInfo) : ObjectCache :=
  let cache_map :=
    match stdmap.find c.cache_map name with
    | none => c.cache_map ++ [(name, { info := new_info, lru_iter := none })]
    | some _ => c.cache_map
  let entry := (stdmap.find cache_map name).getD { info := new_info, lru_iter := none }
  let t := touch_lru L { c with cache_map := cache_map } name entry.lru_iter
  let target := put_info fl entry.info info
  { t.1 with
    cache_map := stdmap.assign t.1.cache_map name { info := target, lru_iter := t.2 } }

/-- `ObjectCache::remove`. -/
def remove (c : ObjectCache) (name : String) : ObjectCache :=
  match stdmap.find c.cache_map name with
  | none => c
  | some entry =>
    { c with lru := remove_lru c.lru entry.lru_iter,
             cache_map := stdmap.erase c.cache_map name }

end ObjectCache

/-- The flag values 1, 2, 4 and 8. -/
def flags1248 : CacheFlags where
  CACHE_FLAG_DATA := 1
  CACHE_FLAG_XATTRS := 2
  CACHE_FLAG_META := 4
  CACHE_FLAG_APPEND_XATTRS := 8

/-- The cache as its constructor leaves it. -/
def cache_empty : ObjectCache where
  cache_map := []
  lru := []
  next_node := 0

/-- A cache over its limit of 1: `a` (meta cached) is the oldest of the three
names in `lru`, before `b` and `c`. -/
def cache_abc : ObjectCache where
  cache_map :=
    [("a", { info := { status := 0, flags := 4, data := [], xattrs := [],
                       meta := { size := 5, mtime := 6 } }, lru_iter := some 0 }),
     ("b", { info := { status := 0, flags := 1, data := [9], xattrs := [],
                       meta := { size := 0, mtime := 0 } }, lru_iter := some 1 }),
     ("c", { info := { status := 0, flags := 1, data := [9], xattrs := [],
                       meta := { size := 0, mtime := 0 } }, lru_iter := some 2 })]
  lru := [(0, "a"), (1, "b"), (2, "c")]
  next_node := 3

/-- Information with data only (flag 1), status 0. -/
def info_data : ObjectCacheInfo where
  status := 0
  flags := 1
  data := [9]
  xattrs := []
  meta := { size := 0, mtime := 0 }

/-- Information of a failed lookup: status `-ENOENT`, with flags and data that
`put` has to ignore. -/
def info_negative : ObjectCacheInfo where
  status := -2
  flags := 7
  data := [1]
  xattrs := [("k", [2])]
  meta := { size := 0, mtime := 0 }

namespace ObjectCache

/-- A call on the cache: `get(name, info, mask)`, `put(name, info)` or
`remove(name)`. -/
inductive CacheCall where
  | get (name : String) (mask : Nat)
  | put (name : String) (info : ObjectCacheInfo)
  | remove (name : String)
  deriving DecidableEq, Repr

/-- The cache after one call. -/
def apply_call (fl : CacheFlags) (L : Nat) (c : ObjectCache) : CacheCall → ObjectCache
  | .get name mask => (get L c name new_info mask).2.2
  | .put name info => put fl L c name info
  | .remove name => remove c name

/-- The cache after a sequence of calls, first call first. -/
def run (fl : CacheFlags) (L : Nat) (c : ObjectCache) (calls : List CacheCall) :
    ObjectCache :=
  calls.foldl (apply_call fl L) c

/-- The cache that `get` and `put` leave once `touch_lru(name, lru_iter)` has run
on the cache map `cm` and the entry of `name` holds the information `i`. -/
def touched (L : Nat) (c : ObjectCache) (cm : List (String × ObjectCacheEntry))
    (name : String) (lru_iter : Option Nat) (i : ObjectCacheInfo) : ObjectCache :=
  { cache_map :=
      stdmap.assign (touch_lru_loop L name c.lru cm).2 name
        { info := i, lru_iter := some c.next_node }
    lru := remove_lru (touch_lru_loop L name c.lru cm).1 lru_iter ++ [(c.next_node, name)]
    next_node := c.next_node + 1 }

/-- The invariant of the cache for the limit `L`: no name and no node occurs
twice in `lru`, the nodes are older than the next one to be created, no key
occurs twice in `cache_map`, every entry's `lru_iter` designates a node of `lru`
that holds the entry's name, every name in `lru` is cached, and `lru` holds at
most `L + 1` names. -/
structure lru_invariant (L : Nat) (c : ObjectCache) : Prop where
  names_nodup : (c.lru.map Prod.snd).Nodup
  nodes_nodup : (c.lru.map Prod.fst).Nodup
  nodes_lt : ∀ node ∈ c.lru, node.1 < c.next_node
  keys_nodup : (c.cache_map.map Prod.fst).Nodup
  iter_ok : ∀ e ∈ c.cache_map, ∃ n, e.2.lru_iter = some n ∧ (n, e.1) ∈ c.lru
  lru_cached : ∀ node ∈ c.lru, node.2 ∈ c.cache_map.map Prod.fst
  size_le : c.lru.length ≤ L + 1

end ObjectCache

/-! ## Properties -/

namespace OSD

variable {utime_t D : Type}

/-! ### How each call acts on the containers and on the counters -/

theorem queue_of_wq_enqueue (conf : RecoveryDelay utime_t D) (now : utime_t)
    (w v : PGQueue) (osd : OSD utime_t) (pg : PG) :
    queue_of w (wq_enqueue conf now v osd pg).2 =
      if w = v ∧ pg ∉ queue_of w osd then queue_of w osd ++ [pg] else queue_of w osd := by
  cases w <;> cases v <;>
    simp only [wq_enqueue, queue_of, RecoveryWQ._enqueue, SnapTrimWQ._enqueue,
      ScrubWQ._enqueue, ScrubFinalizeWQ._enqueue, RemoveWQ._enqueue,
      xlist.is_on_list, xlist.push_back] <;>
    split <;> simp_all <;> split <;> simp_all

theorem nref_wq_enqueue (conf : RecoveryDelay utime_t D) (now : utime_t)
    (v : PGQueue) (osd : OSD utime_t) (pg : PG) :
    (wq_enqueue conf now v osd pg).2.nref =
      if pg ∈ queue_of v osd then osd.nref else PG.get osd.nref pg := by
  cases v <;>
    simp only [wq_enqueue, queue_of, RecoveryWQ._enqueue, SnapTrimWQ._enqueue,
      ScrubWQ._enqueue, ScrubFinalizeWQ._enqueue, RemoveWQ._enqueue,
      xlist.is_on_list, xlist.push_back] <;>
    split <;> simp_all <;> split <;> simp_all

theorem fst_wq_enqueue (conf : RecoveryDelay utime_t D) (now : utime_t)
    (v : PGQueue) (osd : OSD utime_t) (pg : PG) :
    (wq_enqueue conf now v osd pg).1 = !decide (pg ∈ queue_of v osd) := by
  cases v <;>
    simp only [wq_enqueue, queue_of, RecoveryWQ._enqueue, SnapTrimWQ._enqueue,
      ScrubWQ._enqueue, ScrubFinalizeWQ._enqueue, RemoveWQ._enqueue,
      xlist.is_on_list, xlist.push_back] <;>
    split <;> simp_all

theorem stat_wq_enqueue (conf : RecoveryDelay utime_t D) (now : utime_t)
    (v : PGQueue) (osd : OSD utime_t) (pg : PG) :
    (wq_enqueue conf now v osd pg).2.pg_stat_queue = osd.pg_stat_queue := by
  cases v <;>
    simp only [wq_enqueue, queue_of, RecoveryWQ._enqueue, SnapTrimWQ._enqueue,
      ScrubWQ._enqueue, ScrubFinalizeWQ._enqueue, RemoveWQ._enqueue,
      xlist.is_on_list, xlist.push_back] <;>
    split <;> simp_all <;> split <;> simp_all

theorem queue_of_wq_dequeue_pg (w v : PGQueue) (osd : OSD utime_t) (pg : PG) :
    queue_of w (wq_dequeue_pg v osd pg) =
      if w = v then (queue_of w osd).erase pg else queue_of w osd := by
  cases w <;> cases v <;>
    simp only [wq_dequeue_pg, queue_of, RecoveryWQ._dequeue_pg, SnapTrimWQ._dequeue_pg,
      ScrubWQ._dequeue_pg, ScrubFinalizeWQ._dequeue_pg, RemoveWQ._dequeue_pg,
      xlist.remove_myself] <;>
    split <;> simp_all [List.erase_of_not_mem]

theorem nref_wq_dequeue_pg (v : PGQueue) (osd : OSD utime_t) (pg : PG) :
    (wq_dequeue_pg v osd pg).nref =
      if pg ∈ queue_of v osd then PG.put osd.nref pg else osd.nref := by
  cases v <;>
    simp only [wq_dequeue_pg, queue_of, RecoveryWQ._dequeue_pg, SnapTrimWQ._dequeue_pg,
      ScrubWQ._dequeue_pg, ScrubFinalizeWQ._dequeue_pg, RemoveWQ._dequeue_pg,
      xlist.remove_myself] <;>
    split <;> simp_all

theorem stat_wq_dequeue_pg (v : PGQueue) (osd : OSD utime_t) (pg : PG) :
    (wq_dequeue_pg v osd pg).pg_stat_queue = osd.pg_stat_queue := by
  cases v <;>
    simp only [wq_dequeue_pg, queue_of, RecoveryWQ._dequeue_pg, SnapTrimWQ._dequeue_pg,
      ScrubWQ._dequeue_pg, ScrubFinalizeWQ._dequeue_pg, RemoveWQ._dequeue_pg,
      xlist.remove_myself] <;>
    split <;> simp_all

theorem queue_of_wq_dequeue (recover_now : Bool) (w v : PGQueue) (osd : OSD utime_t) :
    queue_of w (wq_dequeue recover_now v osd).2 =
      if w = v ∧ (v = PGQueue.recovery → recover_now = true) then (queue_of w osd).tail
      else queue_of w osd := by
  cases w <;> cases v <;>
    simp only [wq_dequeue, queue_of, RecoveryWQ._dequeue, SnapTrimWQ._dequeue,
      ScrubWQ._dequeue, ScrubFinalizeWQ._dequeue, RemoveWQ._dequeue,
      xlist.empty, xlist.front, xlist.pop_front] <;>
    split <;> simp_all <;> split <;> simp_all

theorem queue_of_wq_clear (w v : PGQueue) (osd : OSD utime_t) :
    queue_of w (wq_clear v osd) = if w = v then [] else queue_of w osd := by
  cases w <;> cases v <;>
    simp [wq_clear, queue_of, RecoveryWQ._clear, SnapTrimWQ._clear,
      ScrubWQ._clear, ScrubFinalizeWQ._clear, RemoveWQ._clear, xlist.clear]

theorem queue_of_pg_stat_queue_enqueue (w : PGQueue) (osd : OSD utime_t) (pg : PG) :
    queue_of w (pg_stat_queue_enqueue osd pg) = queue_of w osd := by
  cases w <;> simp only [pg_stat_queue_enqueue, queue_of] <;> split <;> rfl

theorem stat_pg_stat_queue_enqueue (osd : OSD utime_t) (pg : PG) :
    (pg_stat_queue_enqueue osd pg).pg_stat_queue =
      if osd.is_primary pg = true ∧ pg ∉ osd.pg_stat_queue then osd.pg_stat_queue ++ [pg]
      else osd.pg_stat_queue := by
  by_cases h1 : osd.is_primary pg = true <;> by_cases h2 : pg ∈ osd.pg_stat_queue <;>
    simp [pg_stat_queue_enqueue, xlist.is_on_list, xlist.push_back, h1, h2]

theorem nref_pg_stat_queue_enqueue (osd : OSD utime_t) (pg : PG) :
    (pg_stat_queue_enqueue osd pg).nref =
      if osd.is_primary pg = true ∧ pg ∉ osd.pg_stat_queue then PG.get osd.nref pg
      else osd.nref := by
  by_cases h1 : osd.is_primary pg = true <;> by_cases h2 : pg ∈ osd.pg_stat_queue <;>
    simp [pg_stat_queue_enqueue, xlist.is_on_list, xlist.push_back, h1, h2]

theorem queue_of_pg_stat_queue_dequeue (w : PGQueue) (osd : OSD utime_t) (pg : PG) :
    queue_of w (pg_stat_queue_dequeue osd pg) = queue_of w osd := by
  cases w <;> simp only [pg_stat_queue_dequeue, queue_of] <;> split <;> rfl

theorem stat_pg_stat_queue_dequeue (osd : OSD utime_t) (pg : PG) :
    (pg_stat_queue_dequeue osd pg).pg_stat_queue = osd.pg_stat_queue.erase pg := by
  simp only [pg_stat_queue_dequeue, xlist.remove_myself]
  split <;> simp_all [List.erase_of_not_mem]

theorem nref_pg_stat_queue_dequeue (osd : OSD utime_t) (pg : PG) :
    (pg_stat_queue_dequeue osd pg).nref =
      if pg ∈ osd.pg_stat_queue then PG.put osd.nref pg else osd.nref := by
  simp only [pg_stat_queue_dequeue, xlist.remove_myself]
  split <;> simp_all

/-! ### No queue lists a PG twice -/

theorem nodup_apply_call (conf : RecoveryDelay utime_t D) (w : PGQueue)
    (osd : OSD utime_t) (c : QueueCall utime_t) (h : (queue_of w osd).Nodup) :
    (queue_of w (apply_call conf osd c)).Nodup := by
  cases c with
  | enqueue v pg now =>
    simp only [apply_call, queue_of_wq_enqueue]
    split
    · rename_i hc
      exact List.Nodup.append h (List.nodup_singleton pg) (by simpa using hc.2)
    · exact h
  | dequeue_pg v pg =>
    simp only [apply_call, queue_of_wq_dequeue_pg]
    split
    · exact h.erase pg
    · exact h
  | dequeue v recover_now =>
    simp only [apply_call, queue_of_wq_dequeue]
    split
    · exact h.tail
    · exact h
  | clear v =>
    simp only [apply_call, queue_of_wq_clear]
    split
    · exact List.nodup_nil
    · exact h

theorem nodup_run_calls (conf : RecoveryDelay utime_t D) (w : PGQueue)
    (calls : List (QueueCall utime_t)) (osd : OSD utime_t)
    (h : (queue_of w osd).Nodup) :
    (queue_of w (run_calls conf osd calls)).Nodup := by
  induction calls generalizing osd with
  | nil => exact h
  | cons c rest ih => exact ih _ (nodup_apply_call conf w osd c h)

/-- C1. Starting from an empty queue, after any finite sequence of `_enqueue(pg)`,
`_dequeue(pg)`, `_dequeue()` and `_clear()` calls (on this queue or on the other
PG queues), every PG occurs in the queue's list at most once. -/
theorem queue_lists_pg_at_most_once (conf : RecoveryDelay utime_t D) (w : PGQueue)
    (osd : OSD utime_t) (h0 : queue_of w osd = [])
    (calls : List (QueueCall utime_t)) (pg : PG) :
    (queue_of w (run_calls conf osd calls)).count pg ≤ 1 :=
  List.nodup_iff_count_le_one.mp
    (nodup_run_calls conf w calls osd (by rw [h0]; exact List.nodup_nil)) pg

/-- Witness for C1 on the recovery queue: enqueue twice, dequeue, enqueue. -/
theorem queue_lists_pg_at_most_once_witness :
    queue_of PGQueue.recovery osd_idle = [] ∧
    (queue_of PGQueue.recovery (run_calls delay15 osd_idle
      [.enqueue .recovery 7 100, .enqueue .recovery 7 101, .dequeue .recovery true,
       .enqueue .recovery 7 102])).count 7 ≤ 1 :=
  ⟨rfl, queue_lists_pg_at_most_once delay15 PGQueue.recovery osd_idle rfl _ 7⟩

/-! ### First in, first out -/

theorem items_enqueue (conf : RecoveryDelay utime_t D) (now : utime_t)
    (w : WorkQueue) (osd : OSD utime_t) (x : Nat) :
    items w (enqueue conf now w osd x).2 =
      if (enqueue conf now w osd x).1 = true then items w osd ++ [x] else items w osd := by
  cases w with
  | pg v =>
    simp only [items, enqueue, queue_of_wq_enqueue, fst_wq_enqueue]
    by_cases h : x ∈ queue_of v osd <;> simp [h]
  | command => simp [items, enqueue, CommandWQ._enqueue]
  | rep_scrub => simp [items, enqueue, RepScrubWQ._enqueue]

theorem fst_wq_dequeue (recover_now : Bool) (v : PGQueue) (osd : OSD utime_t) :
    (wq_dequeue recover_now v osd).1 =
      if v = PGQueue.recovery → recover_now = true then (queue_of v osd).head? else none := by
  cases v <;>
    simp only [wq_dequeue, queue_of, RecoveryWQ._dequeue, SnapTrimWQ._dequeue,
      ScrubWQ._dequeue, ScrubFinalizeWQ._dequeue, RemoveWQ._dequeue,
      xlist.empty, xlist.front, xlist.pop_front] <;>
    split <;> simp_all <;> split <;> simp_all

theorem items_dequeue (recover_now : Bool) (w : WorkQueue) (osd : OSD utime_t) :
    (dequeue recover_now w osd).1.toList ++ items w (dequeue recover_now w osd).2 =
      items w osd := by
  cases w with
  | pg v =>
    simp only [items, dequeue, queue_of_wq_dequeue, fst_wq_dequeue]
    cases hq : queue_of v osd <;> split_ifs <;> simp_all
  | command =>
    simp only [items, dequeue, CommandWQ._dequeue]
    cases hq : osd.command_queue <;> simp [hq]
  | rep_scrub =>
    simp only [items, dequeue, RepScrubWQ._dequeue]
    cases hq : osd.rep_scrub_queue <;> simp [hq]

theorem fifo_apply (conf : RecoveryDelay utime_t D) (w : WorkQueue)
    (t : FifoTrace utime_t) (c : FifoCall utime_t)
    (h : t.enqueued = t.dequeued ++ items w t.osd) :
    (apply_fifo conf w t c).enqueued =
      (apply_fifo conf w t c).dequeued ++ items w (apply_fifo conf w t c).osd := by
  cases c with
  | enqueue x now =>
    simp only [apply_fifo, items_enqueue]
    split
    · rw [h, List.append_assoc]
    · exact h
  | dequeue recover_now =>
    have hd := items_dequeue recover_now w t.osd
    simp only [apply_fifo]
    cases hr : (dequeue recover_now w t.osd).1 with
    | none =>
      rw [hr] at hd
      simpa [← hd] using h
    | some x =>
      rw [hr] at hd
      simp only [List.append_assoc]
      rw [h, ← hd]
      simp

theorem fifo_foldl (conf : RecoveryDelay utime_t D) (w : WorkQueue)
    (calls : List (FifoCall utime_t)) (t : FifoTrace utime_t)
    (h : t.enqueued = t.dequeued ++ items w t.osd) :
    (calls.foldl (apply_fifo conf w) t).enqueued =
      (calls.foldl (apply_fifo conf w) t).dequeued ++
        items w (calls.foldl (apply_fifo conf w) t).osd := by
  induction calls generalizing t with
  | nil => exact h
  | cons c rest ih => exact ih _ (fifo_apply conf w t c h)

/-- C3. For each of the seven queues (`RecoveryWQ` under any value of the
admission gate, so in particular while `_recover_now()` is true), starting from
an empty queue and after any interleaving of `_enqueue` and `_dequeue()` calls,
the non-null items returned by `_dequeue()` are, in order, a prefix of the items
whose `_enqueue` succeeded; what is left of that sequence is the queue's content. -/
theorem dequeue_order_is_enqueue_order (conf : RecoveryDelay utime_t D)
    (w : WorkQueue) (osd : OSD utime_t) (h0 : items w osd = [])
    (calls : List (FifoCall utime_t)) :
    (run_fifo conf w osd calls).dequeued <+: (run_fifo conf w osd calls).enqueued ∧
    (run_fifo conf w osd calls).enqueued =
      (run_fifo conf w osd calls).dequeued ++ items w (run_fifo conf w osd calls).osd := by
  have h := fifo_foldl conf w calls { osd := osd, enqueued := [], dequeued := [] }
    (by simp [h0])
  exact ⟨⟨_, h.symm⟩, h⟩

/-- Witness for C3 on the command queue: three items in, two out. -/
theorem dequeue_order_is_enqueue_order_witness :
    items WorkQueue.command osd_idle = [] ∧
    ((run_fifo delay15 .command osd_idle
        [.enqueue 4 0, .enqueue 9 0, .dequeue true, .enqueue 4 0, .dequeue true]).dequeued
      <+: (run_fifo delay15 .command osd_idle
        [.enqueue 4 0, .enqueue 9 0, .dequeue true, .enqueue 4 0, .dequeue true]).enqueued ∧
    (run_fifo delay15 .command osd_idle
        [.enqueue 4 0, .enqueue 9 0, .dequeue true, .enqueue 4 0, .dequeue true]).enqueued =
      (run_fifo delay15 .command osd_idle
        [.enqueue 4 0, .enqueue 9 0, .dequeue true, .enqueue 4 0, .dequeue true]).dequeued ++
      items .command (run_fifo delay15 .command osd_idle
        [.enqueue 4 0, .enqueue 9 0, .dequeue true, .enqueue 4 0, .dequeue true]).osd) :=
  ⟨rfl, dequeue_order_is_enqueue_order delay15 .command osd_idle rfl _⟩

/-! ### Reference counters and queue membership -/

theorem occurrences_apply_link (conf : RecoveryDelay utime_t D) (osd : OSD utime_t)
    (c : LinkCall utime_t) (p : PG) :
    (apply_link conf osd c).nref p - (occurrences (apply_link conf osd c) p : Int) =
      osd.nref p - (occurrences osd p : Int) := by
  cases c with
  | enqueue v pg now =>
    simp only [apply_link, occurrences, queue_of_wq_enqueue, nref_wq_enqueue,
      stat_wq_enqueue]
    by_cases hm : pg ∈ queue_of v osd
    · cases v <;> simp_all
    · by_cases hp : p = pg
      · subst hp
        cases v <;> simp_all [PG.get, List.count_append] <;> omega
      · have hc : List.count p [pg] = 0 := by simp [List.count_singleton, Ne.symm hp]
        cases v <;> simp_all [PG.get, List.count_append]
  | dequeue_pg v pg =>
    simp only [apply_link, occurrences, queue_of_wq_dequeue_pg, nref_wq_dequeue_pg,
      stat_wq_dequeue_pg]
    by_cases hm : pg ∈ queue_of v osd
    · by_cases hp : p = pg
      · subst hp
        have h1 := List.count_pos_iff.mpr hm
        cases v <;> simp_all [PG.put, List.count_erase_self] <;> omega
      · cases v <;> simp_all [PG.put, List.count_erase_of_ne]
    · cases v <;> simp_all [List.erase_of_not_mem]
  | pg_stat_queue_enqueue pg =>
    simp only [apply_link, occurrences, queue_of_pg_stat_queue_enqueue,
      stat_pg_stat_queue_enqueue, nref_pg_stat_queue_enqueue]
    by_cases hm : osd.is_primary pg = true ∧ pg ∉ osd.pg_stat_queue
    · by_cases hp : p = pg
      · subst hp
        simp_all [PG.get, List.count_append]
        omega
      · have hc : List.count p [pg] = 0 := by simp [List.count_singleton, Ne.symm hp]
        simp_all [PG.get, List.count_append]
    · simp [hm]
  | pg_stat_queue_dequeue pg =>
    simp only [apply_link, occurrences, queue_of_pg_stat_queue_dequeue,
      stat_pg_stat_queue_dequeue, nref_pg_stat_queue_dequeue]
    by_cases hm : pg ∈ osd.pg_stat_queue
    · by_cases hp : p = pg
      · subst hp
        have h1 := List.count_pos_iff.mpr hm
        simp_all [PG.put, List.count_erase_self]
        omega
      · simp_all [PG.put, List.count_erase_of_ne]
    · simp_all [List.erase_of_not_mem]

theorem count_le_one_apply_link (conf : RecoveryDelay utime_t D) (osd : OSD utime_t)
    (c : LinkCall utime_t) (p : PG) (w : PGQueue)
    (h : (queue_of w osd).count p ≤ 1) :
    (queue_of w (apply_link conf osd c)).count p ≤ 1 := by
  cases c with
  | enqueue v pg now =>
    simp only [apply_link, queue_of_wq_enqueue]
    split
    · rename_i hc
      by_cases hp : p = pg
      · subst hp
        simp [List.count_append, List.count_eq_zero_of_not_mem hc.2]
      · have hz : List.count p [pg] = 0 := by simp [List.count_singleton, Ne.symm hp]
        simpa [List.count_append, hz] using h
    · exact h
  | dequeue_pg v pg =>
    simp only [apply_link, queue_of_wq_dequeue_pg]
    split
    · exact le_trans ((List.erase_sublist pg _).count_le p) h
    · exact h
  | pg_stat_queue_enqueue pg => simpa only [apply_link, queue_of_pg_stat_queue_enqueue] using h
  | pg_stat_queue_dequeue pg => simpa only [apply_link, queue_of_pg_stat_queue_dequeue] using h

theorem stat_count_le_one_apply_link (conf : RecoveryDelay utime_t D) (osd : OSD utime_t)
    (c : LinkCall utime_t) (p : PG) (h : osd.pg_stat_queue.count p ≤ 1) :
    (apply_link conf osd c).pg_stat_queue.count p ≤ 1 := by
  cases c with
  | enqueue v pg now => simpa only [apply_link, stat_wq_enqueue] using h
  | dequeue_pg v pg => simpa only [apply_link, stat_wq_dequeue_pg] using h
  | pg_stat_queue_enqueue pg =>
    simp only [apply_link, stat_pg_stat_queue_enqueue]
    split
    · rename_i hc
      by_cases hp : p = pg
      · subst hp
        simp [List.count_append, List.count_eq_zero_of_not_mem hc.2]
      · have hz : List.count p [pg] = 0 := by simp [List.count_singleton, Ne.symm hp]
        simpa [List.count_append, hz] using h
    · exact h
  | pg_stat_queue_dequeue pg =>
    simp only [apply_link, stat_pg_stat_queue_dequeue]
    exact le_trans ((List.erase_sublist pg _).count_le p) h

theorem indicator_eq_count (l : List PG) (p : PG) (h : l.count p ≤ 1) :
    (if p ∈ l then 1 else 0) = l.count p := by
  by_cases hm : p ∈ l
  · have := List.count_pos_iff.mpr hm
    simp only [hm, if_true]
    omega
  · simp [hm, List.count_eq_zero_of_not_mem hm]

theorem link_count_eq_occurrences (osd : OSD utime_t) (p : PG)
    (hq : ∀ w, (queue_of w osd).count p ≤ 1) (hs : osd.pg_stat_queue.count p ≤ 1) :
    link_count osd p = occurrences osd p := by
  have h1 := indicator_eq_count _ p (hq .recovery)
  have h2 := indicator_eq_count _ p (hq .snap_trim)
  have h3 := indicator_eq_count _ p (hq .scrub)
  have h4 := indicator_eq_count _ p (hq .scrub_finalize)
  have h5 := indicator_eq_count _ p (hq .remove)
  have h6 := indicator_eq_count _ p hs
  simp only [queue_of] at h1 h2 h3 h4 h5
  simp only [link_count, occurrences, queue_of, h1, h2, h3, h4, h5, h6]

theorem links_invariant (conf : RecoveryDelay utime_t D) (p : PG)
    (calls : List (LinkCall utime_t)) (osd : OSD utime_t)
    (hq : ∀ w, (queue_of w osd).count p ≤ 1) (hs : osd.pg_stat_queue.count p ≤ 1) :
    (∀ w, (queue_of w (run_links conf osd calls)).count p ≤ 1) ∧
    (run_links conf osd calls).pg_stat_queue.count p ≤ 1 ∧
    (run_links conf osd calls).nref p - (occurrences (run_links conf osd calls) p : Int) =
      osd.nref p - (occurrences osd p : Int) := by
  induction calls generalizing osd with
  | nil => exact ⟨hq, hs, rfl⟩
  | cons c rest ih =>
    have h := ih (apply_link conf osd c)
      (fun w => count_le_one_apply_link conf osd c p w (hq w))
      (stat_count_le_one_apply_link conf osd c p hs)
    refine ⟨h.1, h.2.1, ?_⟩
    rw [← occurrences_apply_link conf osd c p]
    exact h.2.2

/-- C4. Let `p` start linked into none of the six queues, with reference counter
`r0`. After any sequence of `_enqueue` / `_dequeue(pg)` calls on the PG queues and
of `pg_stat_queue_enqueue` / `pg_stat_queue_dequeue` calls (for `p` or for other
PGs), the counter of `p` equals `r0` plus the number of queues that link `p`; so,
`r0` being non-negative, it is positive while `p` is linked in some queue. -/
theorem nref_eq_initial_plus_link_count (conf : RecoveryDelay utime_t D)
    (osd : OSD utime_t) (p : PG) (h0 : ∀ w, p ∉ queue_of w osd)
    (hs : p ∉ osd.pg_stat_queue) (calls : List (LinkCall utime_t)) :
    (run_links conf osd calls).nref p =
      osd.nref p + (link_count (run_links conf osd calls) p : Int) ∧
    (0 ≤ osd.nref p → 0 < link_count (run_links conf osd calls) p →
      0 < (run_links conf osd calls).nref p) := by
  have hq0 : ∀ w, (queue_of w osd).count p = 0 :=
    fun w => List.count_eq_zero_of_not_mem (h0 w)
  have hs0 : osd.pg_stat_queue.count p = 0 := List.count_eq_zero_of_not_mem hs
  have hinv := links_invariant conf p calls osd
    (fun w => by rw [hq0 w]; exact Nat.zero_le 1) (by rw [hs0]; exact Nat.zero_le 1)
  have hocc0 : occurrences osd p = 0 := by
    simp only [occurrences, hq0, hs0]
  have hlc := link_count_eq_occurrences (run_links conf osd calls) p hinv.1 hinv.2.1
  have hmain : (run_links conf osd calls).nref p =
      osd.nref p + (link_count (run_links conf osd calls) p : Int) := by
    have h3 := hinv.2.2
    rw [hocc0, ← hlc] at h3
    omega
  refine ⟨hmain, fun hr hl => ?_⟩
  rw [hmain]
  omega

/-- Witness for C4: PG 7 is queued for recovery and for scrub, then leaves the
recovery queue. -/
theorem nref_eq_initial_plus_link_count_witness :
    (∀ w, 7 ∉ queue_of w osd_idle) ∧ 7 ∉ osd_idle.pg_stat_queue ∧
    ((run_links delay15 osd_idle
        [.enqueue .recovery 7 0, .enqueue .scrub 7 0, .pg_stat_queue_enqueue 7,
         .dequeue_pg .recovery 7]).nref 7 =
      osd_idle.nref 7 + (link_count (run_links delay15 osd_idle
        [.enqueue .recovery 7 0, .enqueue .scrub 7 0, .pg_stat_queue_enqueue 7,
         .dequeue_pg .recovery 7]) 7 : Int) ∧
    (0 ≤ osd_idle.nref 7 →
      0 < link_count (run_links delay15 osd_idle
        [.enqueue .recovery 7 0, .enqueue .scrub 7 0, .pg_stat_queue_enqueue 7,
         .dequeue_pg .recovery 7]) 7 →
      0 < (run_links delay15 osd_idle
        [.enqueue .recovery 7 0, .enqueue .scrub 7 0, .pg_stat_queue_enqueue 7,
         .dequeue_pg .recovery 7]).nref 7)) :=
  ⟨fun w => by cases w <;> simp [queue_of, osd_idle], by simp [osd_idle],
   nref_eq_initial_plus_link_count delay15 osd_idle 7
     (fun w => by cases w <;> simp [queue_of, osd_idle]) (by simp [osd_idle]) _⟩

/-! ### The single calls -/

/-- C2. For each of the five PG queues, `_enqueue(pg)` returns true exactly when
`pg` was not in the queue; when it returns true, `pg` is appended at the back,
its reference counter grows by one and no other counter changes; when it
returns false nothing changes at all. -/
theorem enqueue_iff_new (conf : RecoveryDelay utime_t D) (now : utime_t)
    (w : PGQueue) (osd : OSD utime_t) (pg : PG) :
    ((wq_enqueue conf now w osd pg).1 = true ↔ pg ∉ queue_of w osd) ∧
    ((wq_enqueue conf now w osd pg).1 = true →
      queue_of w (wq_enqueue conf now w osd pg).2 = queue_of w osd ++ [pg] ∧
      (wq_enqueue conf now w osd pg).2.nref pg = osd.nref pg + 1 ∧
      ∀ p, p ≠ pg → (wq_enqueue conf now w osd pg).2.nref p = osd.nref p) ∧
    ((wq_enqueue conf now w osd pg).1 = false →
      (wq_enqueue conf now w osd pg).2 = osd) := by
  cases w <;>
    simp only [wq_enqueue, queue_of, RecoveryWQ._enqueue, SnapTrimWQ._enqueue,
      ScrubWQ._enqueue, ScrubFinalizeWQ._enqueue, RemoveWQ._enqueue,
      xlist.is_on_list, xlist.push_back] <;>
    split <;> simp_all [PG.get] <;> split <;> simp_all [PG.get]

theorem clear_loop_of_not_mem (q : List PG) (nref : PG → Int) (p : PG) (h : p ∉ q) :
    clear_loop q nref p = nref p := by
  induction q generalizing nref with
  | nil => rfl
  | cons a rest ih =>
    have ha : p ≠ a := fun e => h (by simp [e])
    have hr : p ∉ rest := fun e => h (by simp [e])
    simp [clear_loop, ih _ hr, PG.put, ha]

/-- The emptying loop of `RecoveryWQ`, `ScrubWQ`, `ScrubFinalizeWQ` and `RemoveWQ`
releases one reference of each PG of a duplicate-free queue. -/
theorem clear_loop_nodup (q : List PG) (nref : PG → Int) (p : PG) (h : q.Nodup) :
    clear_loop q nref p = if p ∈ q then nref p - 1 else nref p := by
  induction q generalizing nref with
  | nil => rfl
  | cons a rest ih =>
    have hn := List.nodup_cons.mp h
    by_cases hp : p = a
    · subst hp
      simp [clear_loop, clear_loop_of_not_mem _ _ _ hn.1, PG.put]
    · have hp2 : ¬ a = p := fun e => hp e.symm
      simp [clear_loop, ih _ hn.2, PG.put, hp, hp2]

/-- `SnapTrimWQ::_clear` empties the queue and touches no reference counter. -/
theorem snap_trim_clear_nref (osd : OSD utime_t) :
    (SnapTrimWQ._clear osd).snap_trim_queue = [] ∧
    (SnapTrimWQ._clear osd).nref = osd.nref :=
  ⟨rfl, rfl⟩

/-- C5, evaluated where it fails. PG 7 is in the snap-trim queue and in the scrub
queue with counter 3. `SnapTrimWQ::_clear` empties its queue and leaves the
counter of PG 7 at 3: the reference held by the queue is not released.
`ScrubWQ::_clear` on the same state empties its queue and brings it to 2. -/
theorem snap_trim_clear_keeps_reference :
    7 ∈ osd_busy.snap_trim_queue ∧ osd_busy.nref 7 = 3 ∧
    (OSD.SnapTrimWQ._clear osd_busy).snap_trim_queue = [] ∧
    (OSD.SnapTrimWQ._clear osd_busy).nref 7 = 3 ∧
    (OSD.ScrubWQ._clear osd_busy).scrub_queue = [] ∧
    (OSD.ScrubWQ._clear osd_busy).nref 7 = 2 := by
  decide

/-- C6. For each of the five PG queues, `_dequeue(pg)` on a queue that lists `pg`
removes that entry and keeps the other entries in order, takes one from the
counter of `pg`, and leaves the other counters and the other queues alone; on a
queue that does not list `pg` it changes nothing. -/
theorem dequeue_pg_removes_that_entry (w : PGQueue) (osd : OSD utime_t) (pg : PG) :
    (pg ∈ queue_of w osd →
      (∃ a b, queue_of w osd = a ++ pg :: b ∧ pg ∉ a ∧
        queue_of w (wq_dequeue_pg w osd pg) = a ++ b) ∧
      (wq_dequeue_pg w osd pg).nref pg = osd.nref pg - 1 ∧
      (∀ p, p ≠ pg → (wq_dequeue_pg w osd pg).nref p = osd.nref p) ∧
      (∀ v, v ≠ w → queue_of v (wq_dequeue_pg w osd pg) = queue_of v osd)) ∧
    (pg ∉ queue_of w osd → wq_dequeue_pg w osd pg = osd) := by
  refine ⟨fun hm => ⟨?_, ?_, ?_, ?_⟩, fun hm => ?_⟩
  · obtain ⟨a, b, ha, hl, he⟩ := List.exists_erase_eq hm
    exact ⟨a, b, hl, ha, by rw [queue_of_wq_dequeue_pg, if_pos rfl, he]⟩
  · simp [nref_wq_dequeue_pg, hm, PG.put]
  · intro p hp
    simp [nref_wq_dequeue_pg, hm, PG.put, hp]
  · intro v hv
    rw [queue_of_wq_dequeue_pg, if_neg hv]
  · cases w <;>
      simp_all [wq_dequeue_pg, queue_of, RecoveryWQ._dequeue_pg, SnapTrimWQ._dequeue_pg,
        ScrubWQ._dequeue_pg, ScrubFinalizeWQ._dequeue_pg, RemoveWQ._dequeue_pg,
        xlist.remove_myself]

/-- C7. For every queue but `RecoveryWQ`, `_dequeue()` on a non-empty queue
returns the front item, leaves the rest of the queue, and changes no reference
counter and no other queue; on an empty queue it returns nothing and changes
nothing. -/
theorem dequeue_hands_out_front (recover_now : Bool) (w : WorkQueue)
    (hw : w ≠ WorkQueue.pg PGQueue.recovery) (osd : OSD utime_t) :
    (items w osd = [] → dequeue recover_now w osd = (none, osd)) ∧
    (∀ x rest, items w osd = x :: rest →
      (dequeue recover_now w osd).1 = some x ∧
      items w (dequeue recover_now w osd).2 = rest ∧
      (dequeue recover_now w osd).2.nref = osd.nref ∧
      ∀ v, v ≠ w → items v (dequeue recover_now w osd).2 = items v osd) := by
  have hdefs : ∀ o : OSD utime_t,
      SnapTrimWQ._dequeue o =
        (if o.snap_trim_queue = [] then (none, o)
         else (o.snap_trim_queue.head?, { o with snap_trim_queue := o.snap_trim_queue.tail })) ∧
      ScrubWQ._dequeue o =
        (if o.scrub_queue = [] then (none, o)
         else (o.scrub_queue.head?, { o with scrub_queue := o.scrub_queue.tail })) ∧
      ScrubFinalizeWQ._dequeue o =
        (if o.scrub_finalize_queue = [] then (none, o)
         else (o.scrub_finalize_queue.head?,
           { o with scrub_finalize_queue := o.scrub_finalize_queue.tail })) ∧
      RemoveWQ._dequeue o =
        (if o.remove_queue = [] then (none, o)
         else (o.remove_queue.head?, { o with remove_queue := o.remove_queue.tail })) ∧
      CommandWQ._dequeue o =
        (if o.command_queue = [] then (none, o)
         else (o.command_queue.head?, { o with command_queue := o.command_queue.tail })) ∧
      RepScrubWQ._dequeue o =
        (if o.rep_scrub_queue = [] then (none, o)
         else (o.rep_scrub_queue.head?,
           { o with rep_scrub_queue := o.rep_scrub_queue.tail })) := by
    intro o
    simp [SnapTrimWQ._dequeue, ScrubWQ._dequeue, ScrubFinalizeWQ._dequeue,
      RemoveWQ._dequeue, CommandWQ._dequeue, RepScrubWQ._dequeue, xlist.empty,
      xlist.front, xlist.pop_front, List.isEmpty_iff]
  obtain ⟨h1, h2, h3, h4, h5, h6⟩ := hdefs osd
  refine ⟨fun h0 => ?_, fun x rest hx => ⟨?_, ?_, ?_, fun v hv => ?_⟩⟩
  · rcases w with (_ | _ | _ | _ | _) | _ | _ <;>
      simp_all [items, dequeue, wq_dequeue, queue_of]
  · rcases w with (_ | _ | _ | _ | _) | _ | _ <;>
      simp_all [items, dequeue, wq_dequeue, queue_of]
  · rcases w with (_ | _ | _ | _ | _) | _ | _ <;>
      simp_all [items, dequeue, wq_dequeue, queue_of]
  · rcases w with (_ | _ | _ | _ | _) | _ | _ <;>
      simp_all [items, dequeue, wq_dequeue, queue_of]
  · rcases w with (_ | _ | _ | _ | _) | _ | _ <;>
      rcases v with (_ | _ | _ | _ | _) | _ | _ <;>
      simp_all [items, dequeue, wq_dequeue, queue_of]

/-- Witness for C7 on the scrub queue of a state that lists PG 7 then PG 8. -/
theorem dequeue_hands_out_front_witness :
    WorkQueue.pg PGQueue.scrub ≠ WorkQueue.pg PGQueue.recovery ∧
    items (WorkQueue.pg PGQueue.scrub) osd_busy = [7, 8] ∧
    (dequeue false (WorkQueue.pg PGQueue.scrub) osd_busy).1 = some 7 ∧
    items (WorkQueue.pg PGQueue.scrub)
      (dequeue false (WorkQueue.pg PGQueue.scrub) osd_busy).2 = [8] ∧
    (dequeue false (WorkQueue.pg PGQueue.scrub) osd_busy).2.nref = osd_busy.nref :=
  have h := (dequeue_hands_out_front false (WorkQueue.pg PGQueue.scrub) (by decide)
    osd_busy).2 7 [8] rfl
  ⟨by decide, rfl, h.1, h.2.1, h.2.2.1⟩

/-- C8 as stated fails. Command 5 is already in `command_queue` and message 6 in
`rep_scrub_queue`; `_enqueue` of the same item returns true and the queue then
holds the item twice. -/
theorem list_enqueue_keeps_duplicate :
    5 ∈ osd_busy.command_queue ∧
    (CommandWQ._enqueue osd_busy 5).1 = true ∧
    (CommandWQ._enqueue osd_busy 5).2.command_queue = [5, 5] ∧
    6 ∈ osd_busy.rep_scrub_queue ∧
    (RepScrubWQ._enqueue osd_busy 6).1 = true ∧
    (RepScrubWQ._enqueue osd_busy 6).2.rep_scrub_queue = [6, 6] := by
  decide

/-- C8, amended. For `CommandWQ` and `RepScrubWQ`, `_enqueue` returns true and
appends the item at the back of the queue whether or not the item is already
there, and changes nothing else. -/
theorem list_enqueue_always_appends (osd : OSD utime_t) (x : Nat) :
    CommandWQ._enqueue osd x =
      (true, { osd with command_queue := osd.command_queue ++ [x] }) ∧
    (CommandWQ._enqueue osd x).2.command_queue.count x = osd.command_queue.count x + 1 ∧
    RepScrubWQ._enqueue osd x =
      (true, { osd with rep_scrub_queue := osd.rep_scrub_queue ++ [x] }) ∧
    (RepScrubWQ._enqueue osd x).2.rep_scrub_queue.count x =
      osd.rep_scrub_queue.count x + 1 := by
  simp [CommandWQ._enqueue, RepScrubWQ._enqueue, List.count_append]

/-- C9. `RecoveryWQ::_dequeue()`: while `_recover_now()` is false it returns
nothing and changes nothing; while it is true and the queue is not empty it
returns the front PG and removes that entry only; on an empty queue it returns
nothing and changes nothing. -/
theorem recovery_dequeue_honours_gate (recover_now : Bool) (osd : OSD utime_t) :
    (recover_now = false → RecoveryWQ._dequeue recover_now osd = (none, osd)) ∧
    (recover_now = true → ∀ pg rest, osd.recovery_queue = pg :: rest →
      RecoveryWQ._dequeue recover_now osd =
        (some pg, { osd with recovery_queue := rest })) ∧
    (osd.recovery_queue = [] → RecoveryWQ._dequeue recover_now osd = (none, osd)) := by
  refine ⟨fun h => ?_, fun h pg rest hq => ?_, fun hq => ?_⟩
  · simp [RecoveryWQ._dequeue, h]
  · simp [RecoveryWQ._dequeue, h, hq, xlist.empty, xlist.front, xlist.pop_front]
  · simp [RecoveryWQ._dequeue, hq, xlist.empty]

/-- C10. `RecoveryWQ::_enqueue(pg)` sets `defer_recovery_until` to the current
time plus `osd_recovery_delay_start` when `pg` is newly added and the delay is
positive; when the call returns false or the delay is not positive,
`defer_recovery_until` keeps its value. -/
theorem recovery_enqueue_defer (conf : RecoveryDelay utime_t D) (now : utime_t)
    (osd : OSD utime_t) (pg : PG) :
    ((RecoveryWQ._enqueue conf now osd pg).1 = true ∧
        conf.gt_zero conf.osd_recovery_delay_start = true →
      (RecoveryWQ._enqueue conf now osd pg).2.defer_recovery_until =
        conf.plus now conf.osd_recovery_delay_start) ∧
    ((RecoveryWQ._enqueue conf now osd pg).1 = false ∨
        conf.gt_zero conf.osd_recovery_delay_start = false →
      (RecoveryWQ._enqueue conf now osd pg).2.defer_recovery_until =
        osd.defer_recovery_until) := by
  by_cases hm : pg ∈ osd.recovery_queue <;>
    by_cases hd : conf.gt_zero conf.osd_recovery_delay_start = true <;>
    simp [RecoveryWQ._enqueue, xlist.is_on_list, xlist.push_back, hm, hd]

end OSD

namespace OSD

/-! ### The operation queue -/

/-- C11 as stated fails. `OpWQ::_clear` on an `op_queue` that holds one PG does
not complete: its assertion fails and the queue still holds the PG. -/
theorem op_clear_nonempty_aborts :
    OpWQ._clear [7] = Outcome.assert_failed [7] ∧
    OpWQ._clear [7] ≠ Outcome.done [] := by
  decide

/-- C11, amended. `OpWQ::_clear` completes normally exactly when `op_queue` is
already empty, and then leaves it empty; on an `op_queue` that holds at least
one PG its assertion fails and nothing is drained. -/
theorem op_clear_only_if_empty (op_queue : List PG) :
    (OpWQ._clear op_queue = Outcome.done [] ↔ op_queue = []) ∧
    (∀ q, OpWQ._clear op_queue = Outcome.done q → op_queue = [] ∧ q = []) ∧
    (op_queue ≠ [] → OpWQ._clear op_queue = Outcome.assert_failed op_queue) := by
  cases op_queue with
  | nil => simp [OpWQ._clear, OpWQ._empty]
  | cons pg rest => simp [OpWQ._clear, OpWQ._empty]

/-! ### The attribute filter -/

theorem filter_xattrs_cons_nonempty {V : Type} (c : Char) (cs : List Char) (v : V)
    (rest : List (String × V)) :
    filter_xattrs ((String.mk (c :: cs), v) :: rest) =
      if is_user_xattr (String.mk (c :: cs)) then
        (filter_xattrs rest).map (fun kept => (String.mk (c :: cs), v) :: kept)
      else filter_xattrs rest := by
  by_cases hc : c = '_' <;> cases cs <;>
    simp [filter_xattrs, is_user_xattr, String.length, hc]

theorem filter_xattrs_eq_filter {V : Type} (attrs : List (String × V))
    (h : ∀ e ∈ attrs, e.1 ≠ "") :
    filter_xattrs attrs = some (attrs.filter (fun e => is_user_xattr e.1)) := by
  induction attrs with
  | nil => rfl
  | cons e rest ih =>
    obtain ⟨⟨data⟩, v⟩ := e
    have hrest : ∀ e ∈ rest, e.1 ≠ "" := fun e he => h e (List.mem_cons_of_mem _ he)
    cases data with
    | nil => exact absurd rfl (h _ (List.mem_cons_self _ _))
    | cons c cs =>
      rw [filter_xattrs_cons_nonempty, ih hrest]
      by_cases hu : is_user_xattr (String.mk (c :: cs)) = true
      · simp [hu]
      · simp [hu]

/-- C12. On an attribute map without the empty name, `filter_xattrs` completes
and leaves exactly the entries whose name starts with `_` and has at least two
characters, in place and with their values; a second call changes nothing. -/
theorem filter_xattrs_keeps_user_xattrs {V : Type} (attrs : List (String × V))
    (h : ∀ e ∈ attrs, e.1 ≠ "") :
    filter_xattrs attrs = some (attrs.filter (fun e => is_user_xattr e.1)) ∧
    filter_xattrs (attrs.filter (fun e => is_user_xattr e.1)) =
      some (attrs.filter (fun e => is_user_xattr e.1)) := by
  refine ⟨filter_xattrs_eq_filter attrs h, ?_⟩
  rw [filter_xattrs_eq_filter _ (fun e he => h e (List.mem_filter.mp he).1)]
  simp [List.filter_filter]

/-- Witness for C12: of `_`, `_user`, `snapset` and `x` only `_user` stays. -/
theorem filter_xattrs_keeps_user_xattrs_witness :
    (∀ e ∈ [("_", 0), ("_user", 1), ("snapset", 2), ("x", 3)], e.1 ≠ "") ∧
    filter_xattrs [("_", 0), ("_user", 1), ("snapset", 2), ("x", 3)] =
      some [("_user", 1)] :=
  ⟨by decide,
   (filter_xattrs_keeps_user_xattrs [("_", 0), ("_user", 1), ("snapset", 2), ("x", 3)]
     (by decide)).1.trans (by decide)⟩

/-- C13, evaluated where it fails. On a map that holds an attribute with the
empty name (the first in key order) the call does not complete: `at(0)` throws
and nothing is removed. Without that attribute the call completes. -/
theorem filter_xattrs_empty_name_throws :
    filter_xattrs [("", 0), ("_user", 1), ("x", 2)] = none ∧
    filter_xattrs [("_user", 1), ("x", 2)] = some [("_user", 1)] := by
  decide

end OSD

namespace stdset

variable {α : Type} [LinearOrder α]

theorem mem_insert (x y : α) (l : List α) : y ∈ insert x l ↔ y = x ∨ y ∈ l := by
  induction l with
  | nil => simp [insert]
  | cons z zs ih =>
    simp only [insert]
    split_ifs with h1 h2
    · simp
    · subst h2
      simp
    · simp only [List.mem_cons, ih]
      tauto

theorem sorted_insert (x : α) (l : List α) (h : l.Sorted (· < ·)) :
    (insert x l).Sorted (· < ·) := by
  induction l with
  | nil => simp [insert]
  | cons z zs ih =>
    have hz := List.sorted_cons.mp h
    simp only [insert]
    split_ifs with h1 h2
    · refine List.sorted_cons.mpr ⟨fun b hb => ?_, h⟩
      rcases List.mem_cons.mp hb with rfl | hb
      · exact h1
      · exact lt_trans h1 (hz.1 b hb)
    · exact h
    · refine List.sorted_cons.mpr ⟨fun b hb => ?_, ih hz.2⟩
      rcases (mem_insert x b zs).mp hb with rfl | hb
      · exact lt_of_le_of_ne (not_lt.mp h1) (fun e => h2 e.symm)
      · exact hz.1 b hb

theorem eq_of_sorted_of_mem_iff (l₁ l₂ : List α) (h₁ : l₁.Sorted (· < ·))
    (h₂ : l₂.Sorted (· < ·)) (h : ∀ a, a ∈ l₁ ↔ a ∈ l₂) : l₁ = l₂ :=
  List.eq_of_perm_of_sorted ((List.perm_ext_iff_of_nodup h₁.nodup h₂.nodup).mpr h) h₁ h₂

theorem insert_of_mem (x : α) (l : List α) (h : l.Sorted (· < ·)) (hx : x ∈ l) :
    insert x l = l :=
  eq_of_sorted_of_mem_iff _ _ (sorted_insert x l h) h (fun a => by
    rw [mem_insert]
    exact ⟨fun ha => ha.elim (fun e => e ▸ hx) id, Or.inr⟩)

theorem insert_comm (x y : α) (l : List α) (h : l.Sorted (· < ·)) :
    insert y (insert x l) = insert x (insert y l) :=
  eq_of_sorted_of_mem_iff _ _ (sorted_insert y _ (sorted_insert x l h))
    (sorted_insert x _ (sorted_insert y l h)) (fun a => by
      simp only [mem_insert]
      tauto)

end stdset

namespace OSD

/-! ### Failure reports -/

/-- C14. On any `failure_queue` (a set: ascending, duplicate-free),
`queue_failure(n)` leaves a set that lists `n` exactly once and otherwise the
peers listed before; when `n` was already queued the set is unchanged; and two
calls for peers `n` and `m` give the same set in either order. -/
theorem queue_failure_dedups (failure_queue : List Int)
    (h : failure_queue.Sorted (· < ·)) (n m : Int) :
    (queue_failure failure_queue n).Sorted (· < ·) ∧
    (queue_failure failure_queue n).count n = 1 ∧
    (∀ k, k ∈ queue_failure failure_queue n ↔ k = n ∨ k ∈ failure_queue) ∧
    (n ∈ failure_queue → queue_failure failure_queue n = failure_queue) ∧
    queue_failure (queue_failure failure_queue n) m =
      queue_failure (queue_failure failure_queue m) n := by
  have hs := stdset.sorted_insert n failure_queue h
  refine ⟨hs, ?_, fun k => stdset.mem_insert n k failure_queue,
    fun hn => stdset.insert_of_mem n failure_queue h hn,
    stdset.insert_comm n m failure_queue h⟩
  exact List.count_eq_one_of_mem hs.nodup ((stdset.mem_insert n n failure_queue).mpr (Or.inl rfl))

/-- Witness for C14: peer 2 reported twice, between peers 1 and 3. -/
theorem queue_failure_dedups_witness :
    [1, 3].Sorted (fun a b : Int => a < b) ∧
    queue_failure (queue_failure [1, 3] 2) 2 = [1, 2, 3] ∧
    (queue_failure [1, 3] 2).count 2 = 1 ∧
    queue_failure (queue_failure [1, 3] 2) 0 = queue_failure (queue_failure [1, 3] 0) 2 :=
  have hw := queue_failure_dedups [1, 3] (by decide) 2 0
  ⟨by decide, by decide, hw.2.1, hw.2.2.2.2⟩

end OSD

namespace stdmap

variable {K V : Type} [DecidableEq K]

theorem count_ne_zero_iff (m : List (K × V)) (k : K) :
    count m k ≠ 0 ↔ ∃ v, (k, v) ∈ m := by
  simp only [count]
  constructor
  · intro h
    split_ifs at h with hf
    · obtain ⟨e, he⟩ := Option.isSome_iff_exists.mp hf
      have h1 := List.find?_some he
      have h2 := List.mem_of_find?_eq_some he
      simp only [decide_eq_true_eq] at h1
      exact ⟨e.2, by rw [← h1]; exact h2⟩
    · exact absurd rfl h
  · rintro ⟨v, hv⟩
    have : (m.find? (fun e => decide (e.1 = k))).isSome = true :=
      List.find?_isSome.mpr ⟨(k, v), hv, by simp⟩
    simp [this]

theorem at_key_of_mem (m : List (K × V)) (k : K) (v dflt : V)
    (hk : (m.map Prod.fst).Nodup) (hv : (k, v) ∈ m) : at_key m k dflt = v := by
  induction m with
  | nil => cases hv
  | cons e rest ih =>
    have hn : e.1 ∉ rest.map Prod.fst ∧ (rest.map Prod.fst).Nodup := List.nodup_cons.mp hk
    by_cases he : e.1 = k
    · rcases List.mem_cons.mp hv with h1 | h1
      · subst h1
        simp [at_key]
      · exact absurd (List.mem_map_of_mem Prod.fst h1) (by simpa [he] using hn.1)
    · rcases List.mem_cons.mp hv with h1 | h1
      · exact absurd (by rw [← h1]) he
      · have := ih hn.2 h1
        simpa [at_key, he] using this

theorem erase_assign (m : List (K × V)) (k : K) (v : V) :
    erase (assign m k v) k = m.filter (fun e => e.1 ≠ k) := by
  induction m with
  | nil => rfl
  | cons e rest ih =>
    simp only [erase, assign] at ih ⊢
    by_cases he : e.1 = k
    · simpa [List.filter_cons, he] using ih
    · simpa [List.filter_cons, he] using ih

theorem filter_ne_of_not_mem_keys (m : List (K × V)) (k : K)
    (h : k ∉ m.map Prod.fst) : m.filter (fun e => e.1 ≠ k) = m := by
  apply List.filter_eq_self.mpr
  intro e he
  have : e.1 ≠ k := fun e1 => h (e1 ▸ List.mem_map_of_mem Prod.fst he)
  simpa using this

theorem flatten_perm_of_mem (m : List (K × List V)) (k : K) (ls : List V)
    (hk : (m.map Prod.fst).Nodup) (hv : (k, ls) ∈ m) :
    ((m.map Prod.snd).flatten).Perm
      (ls ++ ((m.filter (fun e => e.1 ≠ k)).map Prod.snd).flatten) := by
  induction m with
  | nil => cases hv
  | cons e rest ih =>
    have hn : e.1 ∉ rest.map Prod.fst ∧ (rest.map Prod.fst).Nodup := List.nodup_cons.mp hk
    by_cases he : e.1 = k
    · have hnot : k ∉ rest.map Prod.fst := by simpa [he] using hn.1
      rcases List.mem_cons.mp hv with h1 | h1
      · subst h1
        rw [List.filter_cons_of_neg (by simp), filter_ne_of_not_mem_keys rest k hnot]
        simp only [List.map_cons, List.flatten_cons]
        exact List.Perm.refl _
      · exact absurd (List.mem_map_of_mem Prod.fst h1) hnot
    · rcases List.mem_cons.mp hv with h1 | h1
      · exact absurd (by rw [← h1]) he
      · have h2 := ih hn.2 h1
        rw [List.filter_cons_of_pos (by simpa using he)]
        simp only [List.map_cons, List.flatten_cons]
        exact (List.Perm.append_left e.2 h2).trans (List.perm_append_comm_assoc _ _ _)

end stdmap

namespace OSD

/-! ### Waiters -/

/-- C17. `take_waiters(ls)` leaves `finished` followed by `ls`, both in their
order, and leaves `ls` empty; `take_waiter(op)` leaves `finished` followed by
`op`. Every operation is held as many times after the call as before. -/
theorem take_waiters_keeps_order (finished ls : List OpRequest) (op : OpRequest) :
    (take_waiters finished ls).1 = finished ++ ls ∧
    (take_waiters finished ls).2 = [] ∧
    take_waiter finished op = finished ++ [op] ∧
    (∀ x, ((take_waiters finished ls).1 ++ (take_waiters finished ls).2).count x =
      (finished ++ ls).count x) ∧
    (∀ x, (take_waiter finished op).count x = (finished ++ [op]).count x) := by
  simp [take_waiters, take_waiter]

/-- C18. `push_waiters(ls)` with `osd_lock` held leaves `ls` followed by the old
`finished`, both in their order, and leaves `ls` empty; with `osd_lock` not held
its assertion fails, `finished` and `ls` being as they were. -/
theorem push_waiters_requeues_at_front (osd_lock_is_locked : Bool)
    (finished ls : List OpRequest) :
    (osd_lock_is_locked = true →
      push_waiters osd_lock_is_locked finished ls = Outcome.done (ls ++ finished, [])) ∧
    (osd_lock_is_locked = false →
      push_waiters osd_lock_is_locked finished ls =
        Outcome.assert_failed (finished, ls)) := by
  cases osd_lock_is_locked <;> simp [push_waiters]

theorem wake_all_loop_eq (finished : List OpRequest)
    (m : List (pg_t × List OpRequest)) :
    wake_all_loop finished m =
      (finished ++ (m.map Prod.snd).flatten, m.map (fun e => (e.1, []))) := by
  induction m generalizing finished with
  | nil => simp [wake_all_loop]
  | cons e rest ih =>
    obtain ⟨pgid, ls⟩ := e
    simp [wake_all_loop, take_waiters, ih]

theorem wake_pg_waiters_of_mem (w : Waiters) (pgid : pg_t) (ls : List OpRequest)
    (hk : (w.waiting_for_pg.map Prod.fst).Nodup) (hv : (pgid, ls) ∈ w.waiting_for_pg) :
    wake_pg_waiters w pgid =
      { finished := w.finished ++ ls,
        waiting_for_pg := w.waiting_for_pg.filter (fun e => e.1 ≠ pgid) } := by
  have hc : stdmap.count w.waiting_for_pg pgid ≠ 0 :=
    (stdmap.count_ne_zero_iff _ _).mpr ⟨ls, hv⟩
  simp only [wake_pg_waiters, if_pos hc, take_waiters, stdmap.erase_assign,
    stdmap.at_key_of_mem _ pgid ls [] hk hv]

theorem wake_pg_waiters_of_not_mem (w : Waiters) (pgid : pg_t)
    (hv : ∀ ls, (pgid, ls) ∉ w.waiting_for_pg) : wake_pg_waiters w pgid = w := by
  have hc : ¬ stdmap.count w.waiting_for_pg pgid ≠ 0 := fun h =>
    let ⟨ls, hls⟩ := (stdmap.count_ne_zero_iff _ _).mp h
    hv ls hls
  simp only [wake_pg_waiters, if_neg hc]

theorem all_ops_wake_pg_waiters (w : Waiters) (pgid : pg_t)
    (hk : (w.waiting_for_pg.map Prod.fst).Nodup) :
    (Waiters.all_ops (wake_pg_waiters w pgid)).Perm (Waiters.all_ops w) := by
  by_cases hv : ∃ ls, (pgid, ls) ∈ w.waiting_for_pg
  · obtain ⟨ls, hls⟩ := hv
    rw [wake_pg_waiters_of_mem w pgid ls hk hls]
    simp only [Waiters.all_ops, List.append_assoc]
    exact List.Perm.append_left _ (stdmap.flatten_perm_of_mem _ pgid ls hk hls).symm
  · rw [wake_pg_waiters_of_not_mem w pgid (fun ls h => hv ⟨ls, h⟩)]

/-- C19. In a state where `waiting_for_pg` is a map (keys ascending) and no
operation is held twice by `finished` and the waiting lists together:
`wake_pg_waiters(pgid)` appends the list waiting for `pgid`, in order, to
`finished`, drops the entry of `pgid` and keeps every other entry as it is, and
does nothing when `pgid` has no entry; `wake_all_pg_waiters()` appends all the
waiting lists to `finished`, in ascending key order, and leaves `waiting_for_pg`
empty. After either call the lists hold the same operations as before, none
twice. -/
theorem wake_waiters_conserves_ops (w : Waiters) (pgid : pg_t)
    (hkeys : (w.waiting_for_pg.map Prod.fst).Sorted (· < ·))
    (hops : (Waiters.all_ops w).Nodup) :
    (∀ ls, (pgid, ls) ∈ w.waiting_for_pg →
      (wake_pg_waiters w pgid).finished = w.finished ++ ls) ∧
    (wake_pg_waiters w pgid).waiting_for_pg =
      w.waiting_for_pg.filter (fun e => e.1 ≠ pgid) ∧
    ((∀ ls, (pgid, ls) ∉ w.waiting_for_pg) → wake_pg_waiters w pgid = w) ∧
    (Waiters.all_ops (wake_pg_waiters w pgid)).Perm (Waiters.all_ops w) ∧
    (Waiters.all_ops (wake_pg_waiters w pgid)).Nodup ∧
    (wake_all_pg_waiters w).finished =
      w.finished ++ (w.waiting_for_pg.map Prod.snd).flatten ∧
    (wake_all_pg_waiters w).waiting_for_pg = [] ∧
    Waiters.all_ops (wake_all_pg_waiters w) = Waiters.all_ops w ∧
    (Waiters.all_ops (wake_all_pg_waiters w)).Nodup := by
  have hk : (w.waiting_for_pg.map Prod.fst).Nodup := hkeys.nodup
  have hperm := all_ops_wake_pg_waiters w pgid hk
  have hall : Waiters.all_ops (wake_all_pg_waiters w) = Waiters.all_ops w := by
    simp [Waiters.all_ops, wake_all_pg_waiters, wake_all_loop_eq]
  refine ⟨fun ls hls => ?_, ?_, wake_pg_waiters_of_not_mem w pgid, hperm,
    hperm.nodup_iff.mpr hops, ?_, rfl, hall, hall ▸ hops⟩
  · rw [wake_pg_waiters_of_mem w pgid ls hk hls]
  · by_cases hv : ∃ ls, (pgid, ls) ∈ w.waiting_for_pg
    · obtain ⟨ls, hls⟩ := hv
      rw [wake_pg_waiters_of_mem w pgid ls hk hls]
    · rw [wake_pg_waiters_of_not_mem w pgid (fun ls h => hv ⟨ls, h⟩)]
      refine (stdmap.filter_ne_of_not_mem_keys _ pgid ?_).symm
      intro hmem
      obtain ⟨e, he, hek⟩ := List.mem_map.mp hmem
      exact hv ⟨e.2, by rw [← hek]; exact he⟩
  · simp [wake_all_pg_waiters, wake_all_loop_eq]

end OSD

namespace OSD

/-- Witness for C19 on `waiters_two`, waking PG 2. -/
theorem wake_waiters_conserves_ops_witness :
    (waiters_two.waiting_for_pg.map Prod.fst).Sorted (· < ·) ∧
    (Waiters.all_ops waiters_two).Nodup ∧
    (wake_pg_waiters waiters_two 2).finished = [1, 5, 6] ∧
    (wake_pg_waiters waiters_two 2).waiting_for_pg = [(3, [7])] ∧
    (Waiters.all_ops (wake_pg_waiters waiters_two 2)).Nodup ∧
    (wake_all_pg_waiters waiters_two).finished = [1, 5, 6, 7] :=
  have h := wake_waiters_conserves_ops waiters_two 2 (by decide) (by decide)
  ⟨by decide, by decide, h.1 [5, 6] (by decide), h.2.1.trans (by decide), h.2.2.2.2.1,
   h.2.2.2.2.2.1.trans (by decide)⟩

/-! ### Scrub registry -/

/-- C20. On a registry that is a set (ascending, duplicate-free),
`unreg_last_pg_scrub(pgid, t)` fails its assertion exactly when the pair
`(t, pgid)` is not registered; when the pair is registered the call completes,
the registry then holds exactly the other pairs, still as a set. And
`reg_last_pg_scrub(pgid, t)` followed by `unreg_last_pg_scrub(pgid, t)` does
not fail. -/
theorem unreg_last_pg_scrub_fails_iff {utime_t : Type} [LinearOrder utime_t]
    (last_scrub_pg : List (Lex (utime_t × pg_t)))
    (hs : last_scrub_pg.Sorted (· < ·)) (pgid : pg_t) (t : utime_t) :
    ((∃ s, unreg_last_pg_scrub last_scrub_pg pgid t = Outcome.assert_failed s) ↔
      toLex (t, pgid) ∉ last_scrub_pg) ∧
    (toLex (t, pgid) ∈ last_scrub_pg →
      ∃ s, unreg_last_pg_scrub last_scrub_pg pgid t = Outcome.done s ∧
        (∀ q, q ∈ s ↔ q ∈ last_scrub_pg ∧ q ≠ toLex (t, pgid)) ∧
        s.Sorted (· < ·)) ∧
    (∀ s, unreg_last_pg_scrub (reg_last_pg_scrub last_scrub_pg pgid t) pgid t ≠
      Outcome.assert_failed s) := by
  refine ⟨?_, fun hm => ?_, fun s => ?_⟩
  · by_cases hm : toLex (t, pgid) ∈ last_scrub_pg <;>
      simp [unreg_last_pg_scrub, stdset.count, hm]
  · refine ⟨stdset.erase last_scrub_pg (toLex (t, pgid)), ?_, fun q => ?_, ?_⟩
    · simp [unreg_last_pg_scrub, stdset.count, hm]
    · simp [stdset.erase, List.mem_filter]
    · exact List.Pairwise.sublist (List.filter_sublist _) hs
  · have hm : toLex (t, pgid) ∈ reg_last_pg_scrub last_scrub_pg pgid t :=
      (stdset.mem_insert _ _ _).mpr (Or.inl rfl)
    simp [unreg_last_pg_scrub, stdset.count, hm]

/-- Witness for C20 on `scrubs_two`: the pair of PG 3 at time 10 is registered
and its removal leaves the pair of PG 1. -/
theorem unreg_last_pg_scrub_fails_iff_witness :
    scrubs_two.Sorted (· < ·) ∧
    unreg_last_pg_scrub scrubs_two 3 10 = Outcome.done [toLex (20, 1)] ∧
    unreg_last_pg_scrub scrubs_two 3 20 = Outcome.assert_failed scrubs_two ∧
    ((∃ s, unreg_last_pg_scrub scrubs_two 3 20 = Outcome.assert_failed s) ↔
      toLex (20, 3) ∉ scrubs_two) :=
  ⟨by decide, by decide, by decide,
   (unreg_last_pg_scrub_fails_iff scrubs_two (by decide) 3 20).1⟩

end OSD

namespace OSD

/-! ### Epoch cache -/

theorem cached_map_epoch (c : MapCache) (e : epoch_t) (m : OSDMap)
    (h : cached_map c e = some m) : m.epoch = e := by
  have := List.find?_some h
  simpa using this

theorem cached_inc_epoch (c : MapCache) (e : epoch_t) (inc : Incremental)
    (h : cached_inc c e = some inc) : inc.epoch = e := by
  have := List.find?_some h
  simpa using this

theorem get_map_epoch (c : MapCache) (e : epoch_t) (m : OSDMap)
    (h : get_map c e = some m) : m.epoch = e := by
  induction e generalizing m with
  | zero => exact cached_map_epoch c 0 m h
  | succ e ih =>
    simp only [get_map] at h
    cases hc : cached_map c (e + 1) with
    | some x =>
      rw [hc] at h
      simp only [Option.some.injEq] at h
      exact h ▸ cached_map_epoch c (e + 1) x hc
    | none =>
      rw [hc] at h
      cases hg : get_map c e with
      | none => simp [hg] at h
      | some y =>
        cases hi : cached_inc c (e + 1) with
        | none => simp [hg, hi] at h
        | some inc =>
          simp only [hg, hi, Option.some.injEq] at h
          rw [← h]
          exact cached_inc_epoch c (e + 1) inc hi

theorem cached_map_trim (c : MapCache) (h e : epoch_t) (he : e < h) :
    cached_map (trim_map_cache h c) e = none := by
  simp only [cached_map, trim_map_cache, List.find?_eq_none, List.mem_filter]
  intro m hm
  have h1 : h ≤ m.epoch := by simpa using hm.2
  have h2 : m.epoch ≠ e := fun heq => absurd (heq ▸ h1) (Nat.not_le.mpr he)
  simpa using h2

theorem get_map_trim (c : MapCache) (h e : epoch_t) (he : e < h) :
    get_map (trim_map_cache h c) e = none := by
  induction e with
  | zero => exact cached_map_trim c h 0 he
  | succ e ih =>
    have h3 : e < h := Nat.lt_of_succ_lt he
    simp [get_map, cached_map_trim c h (e + 1) he, ih h3]

theorem get_map_add_map (c : MapCache) (oldest : epoch_t) (o : OSDMap) :
    get_map (add_map oldest o c) o.epoch = some o := by
  have hc : cached_map (add_map oldest o c) o.epoch = some o := by
    simp [cached_map, add_map]
  cases he : o.epoch with
  | zero => rw [he] at hc; simpa [get_map] using hc
  | succ e => rw [he] at hc; simp [get_map, hc]

/-- C15. In the epoch cache as the specification describes it: `add_map(m)`
followed by `get_map` of the epoch of `m` returns `m`; after
`trim_map_cache(h)`, `get_map(e)` for `e < h` gives the "not available" result;
and whenever `get_map(e)` returns a snapshot, that snapshot has epoch `e`. -/
theorem epoch_cache_round_trip (c : MapCache) (oldest h e : epoch_t) (m : OSDMap) :
    get_map (add_map oldest m c) m.epoch = some m ∧
    (e < h → get_map (trim_map_cache h c) e = none) ∧
    (∀ x, get_map c e = some x → x.epoch = e) :=
  ⟨get_map_add_map c oldest m, get_map_trim c h e, get_map_epoch c e⟩

end OSD

namespace IndexManager

/-- C24. With `filestore_update_collections` enabled, `build_index` returns an
error of `get_version` as it is and leaves `*index` alone, builds a `FlatIndex`
for version `FLAT_INDEX_TAG`, a `HashIndex` carrying the stored version for
`HASH_INDEX_TAG` and `HASH_INDEX_TAG_2`, returning 0, and fails its assertion
for any other version; with the option disabled it builds a `HashIndex` with
`HASH_INDEX_TAG_2` and returns 0 whatever the stored version is. -/
theorem build_index_by_version (tags : IndexTags)
    (h1 : tags.FLAT_INDEX_TAG ≠ tags.HASH_INDEX_TAG)
    (h2 : tags.FLAT_INDEX_TAG ≠ tags.HASH_INDEX_TAG_2)
    (conf : Conf) (x : StoredVersion) (c : Nat) (path : String) (index : Option Index) :
    (conf.filestore_update_collections = true →
      ((get_version x 0).1 < 0 →
        build_index tags conf x c path index = Outcome.done ((get_version x 0).1, index)) ∧
      (0 ≤ (get_version x 0).1 →
        ((get_version x 0).2 = tags.FLAT_INDEX_TAG →
          build_index tags conf x c path index =
            Outcome.done (0, some (Index.FlatIndex c path))) ∧
        ((get_version x 0).2 = tags.HASH_INDEX_TAG ∨
            (get_version x 0).2 = tags.HASH_INDEX_TAG_2 →
          build_index tags conf x c path index =
            Outcome.done (0, some (Index.HashIndex c path conf.filestore_merge_threshold
              conf.filestore_split_multiple (get_version x 0).2))) ∧
        ((get_version x 0).2 ≠ tags.FLAT_INDEX_TAG →
          (get_version x 0).2 ≠ tags.HASH_INDEX_TAG →
          (get_version x 0).2 ≠ tags.HASH_INDEX_TAG_2 →
          ∃ s, build_index tags conf x c path index = Outcome.assert_failed s))) ∧
    (conf.filestore_update_collections = false →
      build_index tags conf x c path index =
        Outcome.done (0, some (Index.HashIndex c path conf.filestore_merge_threshold
          conf.filestore_split_multiple tags.HASH_INDEX_TAG_2))) := by
  refine ⟨fun hc => ⟨fun hr => ?_, fun hr => ⟨fun hv => ?_, fun hv => ?_, fun n1 n2 n3 => ?_⟩⟩,
    fun hc => ?_⟩
  · simp [build_index, hc, hr]
  · simp [build_index, hc, not_lt.mpr hr, hv]
  · have hne : (get_version x 0).2 ≠ tags.FLAT_INDEX_TAG := by
      rcases hv with hv | hv
      · rw [hv]; exact fun e => h1 e.symm
      · rw [hv]; exact fun e => h2 e.symm
    simp [build_index, hc, not_lt.mpr hr, hne, hv]
  · simp [build_index, hc, not_lt.mpr hr, n1, n2, n3]
  · simp [build_index, hc]

/-- Witness for C24: a collection whose stored version is 1, with tags 0, 1, 2. -/
theorem build_index_by_version_witness :
    tags012.FLAT_INDEX_TAG ≠ tags012.HASH_INDEX_TAG ∧
    tags012.FLAT_INDEX_TAG ≠ tags012.HASH_INDEX_TAG_2 ∧
    build_index tags012 ⟨true, 10, 2⟩ ⟨4, 1⟩ 7 "current/0.1_head" none =
      Outcome.done (0, some (Index.HashIndex 7 "current/0.1_head" 10 2 1)) :=
  ⟨by decide, by decide,
   ((build_index_by_version tags012 (by decide) (by decide) ⟨true, 10, 2⟩ ⟨4, 1⟩ 7
      "current/0.1_head" none).1 rfl).2 (by decide) |>.2.1 (Or.inl (by decide))⟩

end IndexManager

namespace OSD

/-- C25, evaluated where it fails. The names for epochs 10000000 and 100000000
are the same 19 characters: `inc_osdmap.` takes 11 of the 20 bytes, so the 20th
character of `inc_osdmap.100000000` is cut. For the full-map name, whose prefix
has 7 characters, both epochs give different names. -/
theorem inc_osdmap_names_collide :
    (10000000 : epoch_t) ≠ 100000000 ∧ (100000000 : epoch_t) < 2 ^ 32 ∧
    get_inc_osdmap_pobject_name 10000000 = "inc_osdmap.10000000" ∧
    get_inc_osdmap_pobject_name 100000000 = "inc_osdmap.10000000" ∧
    get_osdmap_pobject_name 10000000 ≠ get_osdmap_pobject_name 100000000 := by
  decide

end OSD
namespace OSD

/-! ### Decimal text of a number -/

/-- The decimal digits of `n`, most significant first, as characters. -/
theorem toDigitsCore_eq_digits (fuel n : Nat) (ds : List Char) (h : n < fuel) :
    Nat.toDigitsCore 10 fuel n ds =
      (if n = 0 then ['0'] else (Nat.digits 10 n).reverse.map Nat.digitChar) ++ ds := by
  induction fuel generalizing n ds with
  | zero => exact absurd h (Nat.not_lt_zero n)
  | succ f ih =>
    simp only [Nat.toDigitsCore]
    by_cases h0 : n / 10 = 0
    · have hlt : n < 10 := by omega
      have hmod : n % 10 = n := Nat.mod_eq_of_lt hlt
      simp only [h0, if_true, hmod]
      by_cases hn : n = 0
      · subst hn
        rfl
      · simp [hn, Nat.digits_of_lt 10 n hn hlt]
    · have hn : n ≠ 0 := by
        intro e
        rw [e] at h0
        exact h0 rfl
      have hlt : n / 10 < f := by omega
      rw [if_neg h0, ih (n / 10) _ hlt, if_neg h0, if_neg hn,
        Nat.digits_def' (by decide : 1 < 10) (Nat.pos_of_ne_zero hn)]
      simp

theorem toDigits_eq_digits (n : Nat) :
    Nat.toDigits 10 n =
      if n = 0 then ['0'] else (Nat.digits 10 n).reverse.map Nat.digitChar := by
  have h := toDigitsCore_eq_digits (n + 1) n [] (Nat.lt_succ_self n)
  simpa [Nat.toDigits] using h

theorem digitChar_toNat (d : Nat) (h : d < 10) : (Nat.digitChar d).toNat - 48 = d := by
  interval_cases d <;> rfl

theorem digitChar_ne_minus (d : Nat) (h : d < 10) : Nat.digitChar d ≠ '-' := by
  interval_cases d <;> decide

/-- Reading back the number from its decimal text. -/
theorem ofDigits_toDigits (n : Nat) :
    Nat.ofDigits 10 (((Nat.toDigits 10 n).map (fun c => c.toNat - 48)).reverse) = n := by
  rw [toDigits_eq_digits]
  by_cases hn : n = 0
  · subst hn
    rfl
  · rw [if_neg hn, List.map_map, List.map_reverse, List.reverse_reverse]
    have hmap : (Nat.digits 10 n).map ((fun c => c.toNat - 48) ∘ Nat.digitChar) =
        Nat.digits 10 n := by
      conv_rhs => rw [← List.map_id (Nat.digits 10 n)]
      apply List.map_congr_left
      intro d hd
      exact digitChar_toNat d (Nat.digits_lt_base (by decide) hd)
    rw [hmap, Nat.ofDigits_digits]

theorem toDigits_injective (n m : Nat) (h : Nat.toDigits 10 n = Nat.toDigits 10 m) :
    n = m := by
  rw [← ofDigits_toDigits n, ← ofDigits_toDigits m, h]

theorem toDigits_ne_minus (n : Nat) (c : Char) (hc : c ∈ Nat.toDigits 10 n) : c ≠ '-' := by
  rw [toDigits_eq_digits] at hc
  by_cases hn : n = 0
  · rw [if_pos hn] at hc
    have : c = '0' := by simpa using hc
    rw [this]
    decide
  · rw [if_neg hn] at hc
    obtain ⟨d, hd, rfl⟩ := List.mem_map.mp hc
    exact digitChar_ne_minus d (Nat.digits_lt_base (by decide) (List.mem_reverse.mp hd))

theorem printf_d_injective (i j : Int) (h : printf_d i = printf_d j) : i = j := by
  unfold printf_d at h
  by_cases hi : i < 0 <;> by_cases hj : j < 0
  · rw [if_pos hi, if_pos hj] at h
    have := toDigits_injective _ _ (List.cons.inj h).2
    omega
  · rw [if_pos hi, if_neg hj] at h
    exact absurd rfl (toDigits_ne_minus j.natAbs '-' (by rw [← h]; exact List.mem_cons_self _ _))
  · rw [if_neg hi, if_pos hj] at h
    exact absurd rfl (toDigits_ne_minus i.natAbs '-' (by rw [h]; exact List.mem_cons_self _ _))
  · rw [if_neg hi, if_neg hj] at h
    have := toDigits_injective _ _ h
    omega

theorem printf_d_length (i : Int) (h : i.natAbs < 10 ^ 10) : (printf_d i).length ≤ 11 := by
  have hl : (Nat.toDigits 10 i.natAbs).length ≤ 10 :=
    Nat.toDigitsCore_length 10 (by decide) (i.natAbs + 1) i.natAbs 10 h (by decide)
  unfold printf_d
  split
  · simpa using hl
  · exact le_trans hl (by decide)

theorem int_of_u32_injective (e1 e2 : Nat) (h1 : e1 < 2 ^ 32) (h2 : e2 < 2 ^ 32)
    (h : int_of_u32 e1 = int_of_u32 e2) : e1 = e2 := by
  unfold int_of_u32 at h
  have p31 : (2 : Int) ^ 31 = 2147483648 := by norm_num
  have p32 : (2 : Int) ^ 32 = 4294967296 := by norm_num
  have q31 : (2 : Nat) ^ 31 = 2147483648 := by norm_num
  have q32 : (2 : Nat) ^ 32 = 4294967296 := by norm_num
  rw [q32] at h1 h2
  rw [q31, p32] at h
  split_ifs at h <;> omega

theorem int_of_u32_natAbs (e : Nat) (h : e < 2 ^ 32) :
    (int_of_u32 e).natAbs < 10 ^ 10 := by
  unfold int_of_u32
  have p32 : (2 : Int) ^ 32 = 4294967296 := by norm_num
  have q31 : (2 : Nat) ^ 31 = 2147483648 := by norm_num
  have q32 : (2 : Nat) ^ 32 = 4294967296 := by norm_num
  have q10 : (10 : Nat) ^ 10 = 10000000000 := by norm_num
  rw [q32] at h
  rw [q31, p32, q10]
  split_ifs <;> omega

theorem get_osdmap_pobject_name_eq (e : epoch_t) (h : e < 2 ^ 32) :
    get_osdmap_pobject_name e =
      String.mk ("osdmap.".toList ++ printf_d (int_of_u32 e)) := by
  have hl := printf_d_length (int_of_u32 e) (int_of_u32_natAbs e h)
  have hp : "osdmap.".toList.length = 7 := rfl
  unfold get_osdmap_pobject_name snprintf
  rw [List.take_of_length_le (by rw [List.length_append, hp]; omega)]

/-- C26. For 32-bit epochs the full-map name is `osdmap.` followed by the whole
`%d` text of the epoch (nothing is cut by the 20-byte buffer), different epochs
have different names, and no full-map name is an incremental-map name. -/
theorem osdmap_names_injective (e1 e2 : epoch_t) (h1 : e1 < 2 ^ 32) (h2 : e2 < 2 ^ 32) :
    (e1 ≠ e2 → get_osdmap_pobject_name e1 ≠ get_osdmap_pobject_name e2) ∧
    get_osdmap_pobject_name e1 = String.mk ("osdmap.".toList ++ printf_d (int_of_u32 e1)) ∧
    get_osdmap_pobject_name e1 ≠ get_inc_osdmap_pobject_name e2 := by
  refine ⟨fun hne heq => hne ?_, get_osdmap_pobject_name_eq e1 h1, ?_⟩
  · rw [get_osdmap_pobject_name_eq e1 h1, get_osdmap_pobject_name_eq e2 h2] at heq
    have h3 := List.append_cancel_left (congrArg String.data heq)
    exact int_of_u32_injective e1 e2 h1 h2 (printf_d_injective _ _ h3)
  · intro heq
    have ho : "osdmap.".toList = 'o' :: "sdmap.".toList := rfl
    have hi : "inc_osdmap.".toList = 'i' :: "nc_osdmap.".toList := rfl
    unfold get_osdmap_pobject_name get_inc_osdmap_pobject_name snprintf at heq
    rw [ho, hi] at heq
    have h3 := congrArg String.data heq
    simp at h3

/-- Witness for C26 at the epochs 10000000 and 100000000. -/
theorem osdmap_names_injective_witness :
    (10000000 : epoch_t) < 2 ^ 32 ∧ (100000000 : epoch_t) < 2 ^ 32 ∧
    get_osdmap_pobject_name 100000000 = "osdmap.100000000" ∧
    get_osdmap_pobject_name 10000000 ≠ get_inc_osdmap_pobject_name 100000000 :=
  have h := osdmap_names_injective 100000000 100000000 (by decide) (by decide)
  ⟨by decide, by decide, h.2.1.trans (by decide), by decide⟩

end OSD

namespace RGWFormatter_Plain

theorem write_data_buf (f : RGWFormatter_Plain) (text : List Char) :
    (write_data f text).buf = some ((f.buf.getD []).take (f.len - 1) ++ text) := by
  obtain ⟨buf, len, max_len, stack, msl⟩ := f
  cases buf <;> cases len <;> simp [write_data] <;> split_ifs <;> simp_all

theorem write_data_len (f : RGWFormatter_Plain) (text : List Char) :
    (write_data f text).len = (f.len - 1) + text.length + 1 := by
  obtain ⟨buf, len, max_len, stack, msl⟩ := f
  cases buf <;> cases len <;> simp [write_data] <;> split_ifs <;> simp_all

theorem len_matches_buf_congr (f g : RGWFormatter_Plain) (hl : g.len = f.len)
    (hb : g.buf = f.buf) (h : len_matches_buf f) : len_matches_buf g := by
  unfold len_matches_buf at *
  rw [hl, hb]
  exact h

theorem write_data_text (f : RGWFormatter_Plain) (text : List Char)
    (h : len_matches_buf f) :
    (write_data f text).buf = some ((flush f).1 ++ text) ∧
    (write_data f text).len = ((flush f).1 ++ text).length + 1 ∧
    get_len f = (flush f).1.length := by
  rcases h with ⟨h0, hb⟩ | ⟨s, hb, hl⟩
  · simp [write_data_buf, write_data_len, flush, get_len, h0, hb]
  · simp [write_data_buf, write_data_len, flush, get_len, hl, hb]

theorem len_matches_buf_write_data (f : RGWFormatter_Plain) (text : List Char)
    (h : len_matches_buf f) : len_matches_buf (write_data f text) :=
  Or.inr ⟨_, (write_data_text f text h).1, (write_data_text f text h).2.1⟩

theorem len_matches_buf_dump_format (f g : RGWFormatter_Plain) (text : List Char)
    (h : len_matches_buf f) (hg : dump_format f text = some g) : len_matches_buf g := by
  unfold dump_format at hg
  cases hs : f.stack.getLast? with
  | none => simp [hs] at hg
  | some entry =>
    simp only [hs] at hg
    split_ifs at hg <;> simp only [Option.some.injEq] at hg <;> subst hg
    all_goals first
      | exact len_matches_buf_congr f _ rfl rfl h
      | exact len_matches_buf_write_data _ _ (len_matches_buf_congr f _ rfl rfl h)

theorem len_matches_buf_dump_value_int (f g : RGWFormatter_Plain) (text : List Char)
    (h : len_matches_buf f) (hg : dump_value_int f text = some g) : len_matches_buf g := by
  unfold dump_value_int at hg
  split_ifs at hg with h1
  all_goals
    simp only at hg
    split at hg
    · exact absurd hg (by simp)
    · split_ifs at hg <;> simp only [Option.some.injEq] at hg <;> subst hg
      all_goals first
        | exact len_matches_buf_congr f _ rfl rfl h
        | exact len_matches_buf_write_data _ _ (len_matches_buf_congr f _ rfl rfl h)

theorem len_matches_buf_apply_call (f g : RGWFormatter_Plain) (c : Call)
    (h : len_matches_buf f) (hg : apply_call f c = some g) : len_matches_buf g := by
  cases c with
  | reset =>
    simp only [apply_call, Option.some.injEq] at hg
    subst hg
    exact Or.inl ⟨rfl, rfl⟩
  | open_array_section =>
    simp only [apply_call, Option.some.injEq] at hg
    subst hg
    exact len_matches_buf_congr f _ rfl rfl h
  | open_object_section =>
    simp only [apply_call, Option.some.injEq] at hg
    subst hg
    exact len_matches_buf_congr f _ rfl rfl h
  | close_section =>
    simp only [apply_call, close_section] at hg
    split_ifs at hg
    simp only [Option.some.injEq] at hg
    subst hg
    exact len_matches_buf_congr f _ rfl rfl h
  | dump_format text => exact len_matches_buf_dump_format f g text h hg
  | dump_value_int text => exact len_matches_buf_dump_value_int f g text h hg
  | write_raw_data data =>
    simp only [apply_call, Option.some.injEq] at hg
    subst hg
    exact len_matches_buf_write_data f data h

theorem len_matches_buf_run (calls : List Call) (f g : RGWFormatter_Plain)
    (h : len_matches_buf f) (hg : run f calls = some g) : len_matches_buf g := by
  induction calls generalizing f with
  | nil =>
    simp only [run, Option.some.injEq] at hg
    exact hg ▸ h
  | cons c rest ih =>
    simp only [run] at hg
    cases hc : apply_call f c with
    | none => simp [hc] at hg
    | some f1 =>
      rw [hc] at hg
      exact ih f1 (len_matches_buf_apply_call f f1 c h hc) hg

/-- C23. After `reset` and any sequence of calls that are defined, `len` is 0
with an empty buffer or the length of the text held plus one, and `get_len()` is
the number of characters of that text (what `flush` would emit), hence 0 when
nothing was written; `write_raw_data(d)` appends `d` to the text and adds
`strlen(d)` to `get_len()`. -/
theorem get_len_counts_text (f0 g : RGWFormatter_Plain) (calls : List Call)
    (h : run (reset f0) calls = some g) :
    len_matches_buf g ∧
    get_len g = (flush g).1.length ∧
    get_len (reset f0) = 0 ∧
    (∀ d, (flush (write_raw_data g d)).1 = (flush g).1 ++ d) ∧
    (∀ d, get_len (write_raw_data g d) = get_len g + d.length) := by
  have hw : len_matches_buf g := len_matches_buf_run calls (reset f0) g (Or.inl ⟨rfl, rfl⟩) h
  have hlen : ∀ f, len_matches_buf f → get_len f = (flush f).1.length :=
    fun f hf => (write_data_text f [] hf).2.2
  have hfl : ∀ d, (flush (write_raw_data g d)).1 = (flush g).1 ++ d := by
    intro d
    simp [flush, write_raw_data, (write_data_text g d hw).1]
  refine ⟨hw, hlen g hw, rfl, hfl, fun d => ?_⟩
  have h1 : get_len (write_raw_data g d) = (flush (write_raw_data g d)).1.length :=
    hlen _ (len_matches_buf_write_data g d hw)
  rw [h1, hlen g hw, hfl d, List.length_append]

/-- Witness for C23: an object section is opened, `ab` is dumped and printed, a
second value is dumped and not printed, `xyz` is written raw. -/
theorem get_len_counts_text_witness :
    run (reset formatter_new)
      [.open_object_section, .dump_format ['a', 'b'], .dump_value_int ['7'],
       .write_raw_data ['x', 'y', 'z']] = some formatter_abxyz ∧
    get_len formatter_abxyz = 5 ∧
    get_len (write_raw_data formatter_abxyz ['!']) = 6 :=
  have h := get_len_counts_text formatter_new formatter_abxyz
    [.open_object_section, .dump_format ['a', 'b'], .dump_value_int ['7'],
     .write_raw_data ['x', 'y', 'z']] (by decide)
  ⟨by decide, h.2.1.trans (by decide), (h.2.2.2.2 ['!']).trans (by decide)⟩

end RGWFormatter_Plain

namespace ObjectCache

/-! ### Flag words -/

theorem and_not32_and_self (x m : Nat) (hm : m < 2 ^ 32) : (x &&& not32 m) &&& m = 0 := by
  apply Nat.eq_of_testBit_eq
  intro i
  simp only [not32, Nat.testBit_and, Nat.testBit_xor, Nat.testBit_two_pow_sub_one,
    Nat.zero_testBit]
  by_cases hi : i < 32
  · cases x.testBit i <;> cases m.testBit i <;> simp [hi]
  · have : m.testBit i = false :=
      Nat.testBit_lt_two_pow (lt_of_lt_of_le hm (Nat.pow_le_pow_right (by decide) (not_lt.mp hi)))
    simp [this]

theorem and_ne_of_disjoint (f k m : Nat) (hf : f &&& m = 0) (hk : k &&& m ≠ 0) :
    f &&& k ≠ k := by
  intro h
  apply hk
  apply Nat.eq_of_testBit_eq
  intro j
  have h1 := congrArg (fun x => x.testBit j) h
  have h2 := congrArg (fun x => x.testBit j) hf
  simp only [Nat.testBit_and, Nat.zero_testBit] at h1 h2
  simp only [Nat.testBit_and, Nat.zero_testBit]
  cases hkj : k.testBit j <;> cases hfj : f.testBit j <;> cases hmj : m.testBit j <;>
    simp_all

theorem or_and_of_subset (o i k : Nat) (hk : k &&& i = k) : (o ||| i) &&& k = k := by
  apply Nat.eq_of_testBit_eq
  intro j
  have h := congrArg (fun x => x.testBit j) hk
  simp only [Nat.testBit_and] at h
  simp only [Nat.testBit_and, Nat.testBit_or]
  cases hkj : k.testBit j <;> cases hij : i.testBit j <;> simp_all

theorem or_and_not32_and_of_subset (o i k m : Nat) (hk : k &&& i = k) (hi : i < 2 ^ 32)
    (him : i &&& m = 0) : ((o ||| i) &&& not32 m) &&& k = k := by
  apply Nat.eq_of_testBit_eq
  intro j
  have h := congrArg (fun x => x.testBit j) hk
  have h2 := congrArg (fun x => x.testBit j) him
  simp only [Nat.testBit_and, Nat.zero_testBit] at h h2
  simp only [not32, Nat.testBit_and, Nat.testBit_or, Nat.testBit_xor,
    Nat.testBit_two_pow_sub_one]
  by_cases hj : j < 32
  · cases hkj : k.testBit j <;> cases hij : i.testBit j <;> cases hmj : m.testBit j <;>
      simp_all
  · have : i.testBit j = false :=
      Nat.testBit_lt_two_pow (lt_of_lt_of_le hi (Nat.pow_le_pow_right (by decide) (not_lt.mp hj)))
    cases hkj : k.testBit j <;> simp_all

/-! ### What `put` writes into an entry -/

theorem put_info_negative (fl : CacheFlags) (target info : ObjectCacheInfo)
    (h : info.status < 0) :
    put_info fl target info =
      { target with status := info.status, flags := 0, xattrs := [], data := [] } := by
  simp [put_info, h]

theorem put_info_status (fl : CacheFlags) (target info : ObjectCacheInfo) :
    (put_info fl target info).status = info.status := by
  unfold put_info
  simp only
  split_ifs <;> rfl

theorem put_info_flags (fl : CacheFlags) (target info : ObjectCacheInfo)
    (h : 0 ≤ info.status) :
    (put_info fl target info).flags =
      if info.flags &&& fl.CACHE_FLAG_META ≠ 0 then target.flags ||| info.flags
      else (target.flags ||| info.flags) &&& not32 fl.CACHE_FLAG_META := by
  unfold put_info
  simp only [not_lt.mpr h, if_false]
  split_ifs <;> rfl

theorem put_info_data (fl : CacheFlags) (target info : ObjectCacheInfo)
    (h : 0 ≤ info.status) (hd : info.flags &&& fl.CACHE_FLAG_DATA ≠ 0) :
    (put_info fl target info).data = info.data := by
  unfold put_info
  simp only [not_lt.mpr h, if_false, hd]
  split_ifs <;> rfl

theorem put_info_xattrs (fl : CacheFlags) (target info : ObjectCacheInfo)
    (h : 0 ≤ info.status) (hd : info.flags &&& fl.CACHE_FLAG_XATTRS ≠ 0) :
    (put_info fl target info).xattrs = info.xattrs := by
  unfold put_info
  simp only [not_lt.mpr h, if_false, hd]
  split_ifs <;> rfl

theorem put_info_meta (fl : CacheFlags) (target info : ObjectCacheInfo)
    (h : 0 ≤ info.status) (hd : info.flags &&& fl.CACHE_FLAG_META ≠ 0) :
    (put_info fl target info).meta = info.meta := by
  unfold put_info
  simp only [not_lt.mpr h, if_false, hd]
  split_ifs <;> rfl

end ObjectCache
namespace stdmap

variable {K V : Type} [DecidableEq K]

theorem find_filter (m : List (K × V)) (p : K × V → Bool) (k : K)
    (h : ∀ e ∈ m, e.1 = k → p e = true) : find (m.filter p) k = find m k := by
  induction m with
  | nil => rfl
  | cons e rest ih =>
    have hr : ∀ e ∈ rest, e.1 = k → p e = true := fun x hx => h x (List.mem_cons_of_mem _ hx)
    have ih1 := ih hr
    simp only [find] at ih1 ⊢
    by_cases hp : p e = true
    · rw [List.filter_cons_of_pos hp]
      by_cases hk : e.1 = k
      · simp [List.find?_cons, hk]
      · simpa [List.find?_cons, hk] using ih1
    · rw [List.filter_cons_of_neg hp]
      have hk : ¬ e.1 = k := fun hk => hp (h e (List.mem_cons_self _ _) hk)
      simpa [List.find?_cons, hk] using ih1

theorem find_assign_self (m : List (K × V)) (k : K) (v : V) :
    find (assign m k v) k = (find m k).map (fun _ => v) := by
  induction m with
  | nil => rfl
  | cons e rest ih =>
    simp only [find, assign] at ih ⊢
    by_cases hk : e.1 = k
    · simp [List.find?_cons, hk]
    · simpa [List.find?_cons, hk] using ih

theorem find_append_new (m : List (K × V)) (k : K) (v : V) (h : find m k = none) :
    find (m ++ [(k, v)]) k = some v := by
  simp only [find, Option.map_eq_none'] at h
  simp [find, List.find?_append, h]

theorem find_isSome_iff (m : List (K × V)) (k : K) :
    (find m k).isSome = true ↔ k ∈ m.map Prod.fst := by
  simp only [find, Option.isSome_map', List.find?_isSome, List.mem_map]
  constructor
  · rintro ⟨e, he, hk⟩
    exact ⟨e, he, by simpa using hk⟩
  · rintro ⟨e, he, hk⟩
    exact ⟨e, he, by simpa using hk⟩

theorem find_mem (m : List (K × V)) (k : K) (v : V) (h : find m k = some v) :
    (k, v) ∈ m := by
  simp only [find, Option.map_eq_some'] at h
  obtain ⟨e, he, hv⟩ := h
  have h1 := List.find?_some he
  have h2 := List.mem_of_find?_eq_some he
  simp only [decide_eq_true_eq] at h1
  rw [← h1, ← hv]
  exact h2

end stdmap

namespace ObjectCache

/-! ### The eviction loop -/

/-- The loop of `touch_lru` removes a prefix of `lru` that does not hold `name`,
erases the cache entries of the removed names, and stops when `lru` is within
the limit or `name` is at its front. -/
theorem touch_lru_loop_spec (L : Nat) (name : String) (lru : List (Nat × String))
    (cm : List (String × ObjectCacheEntry)) :
    ∃ evicted,
      lru = evicted ++ (touch_lru_loop L name lru cm).1 ∧
      (touch_lru_loop L name lru cm).2 =
        cm.filter (fun e => decide (e.1 ∉ evicted.map Prod.snd)) ∧
      name ∉ evicted.map Prod.snd ∧
      ((touch_lru_loop L name lru cm).1.length ≤ L ∨
        ((touch_lru_loop L name lru cm).1.head?).map Prod.snd = some name) := by
  induction lru generalizing cm with
  | nil => exact ⟨[], rfl, by simp [touch_lru_loop], by simp, Or.inl (by simp [touch_lru_loop])⟩
  | cons node rest ih =>
    by_cases hlen : (node :: rest).length > L
    · by_cases hn : node.2 = name
      · have hloop : touch_lru_loop L name (node :: rest) cm = (node :: rest, cm) := by
          simp only [touch_lru_loop, if_pos hlen, if_pos hn]
        rw [hloop]
        exact ⟨[], rfl, by simp, by simp, Or.inr (by simp [hn])⟩
      · obtain ⟨ev, h1, h2, h3, h4⟩ := ih (stdmap.erase cm node.2)
        have hloop : touch_lru_loop L name (node :: rest) cm =
            touch_lru_loop L name rest (stdmap.erase cm node.2) := by
          simp only [touch_lru_loop, if_pos hlen, if_neg hn]
        refine ⟨node :: ev, ?_, ?_, ?_, ?_⟩
        · rw [hloop, List.cons_append, ← h1]
        · rw [hloop, h2, stdmap.erase, List.filter_filter]
          apply List.filter_congr
          intro e _
          simp only [List.map_cons, List.mem_cons, not_or, Bool.decide_and, ne_eq]
          rw [Bool.and_comm]
        · simp only [List.map_cons, List.mem_cons, not_or]
          exact ⟨fun e => hn e.symm, h3⟩
        · rw [hloop]
          exact h4
    · have hloop : touch_lru_loop L name (node :: rest) cm = (node :: rest, cm) := by
        simp only [touch_lru_loop, if_neg hlen]
      rw [hloop]
      exact ⟨[], rfl, by simp, by simp, Or.inl (not_lt.mp hlen)⟩

theorem find_touch_lru_loop (L : Nat) (name : String) (lru : List (Nat × String))
    (cm : List (String × ObjectCacheEntry)) :
    stdmap.find (touch_lru_loop L name lru cm).2 name = stdmap.find cm name := by
  obtain ⟨ev, _, h2, h3, _⟩ := touch_lru_loop_spec L name lru cm
  rw [h2]
  apply stdmap.find_filter
  intro e _ he
  simpa [he] using h3

theorem touch_lru_snd (L : Nat) (c : ObjectCache) (name : String) (it : Option Nat) :
    (touch_lru L c name it).2 = some c.next_node := by
  cases it <;> rfl

theorem touch_lru_cache_map (L : Nat) (c : ObjectCache) (name : String) (it : Option Nat) :
    (touch_lru L c name it).1.cache_map = (touch_lru_loop L name c.lru c.cache_map).2 := by
  cases it <;> rfl

theorem touch_lru_lru (L : Nat) (c : ObjectCache) (name : String) (it : Option Nat) :
    (touch_lru L c name it).1.lru =
      remove_lru (touch_lru_loop L name c.lru c.cache_map).1 it ++ [(c.next_node, name)] := by
  cases it <;> rfl

theorem touch_lru_next_node (L : Nat) (c : ObjectCache) (name : String) (it : Option Nat) :
    (touch_lru L c name it).1.next_node = c.next_node + 1 := by
  cases it <;> rfl

/-- The information cached for `name` before a call, or the value-initialised
one when `name` is not cached. -/
theorem put_find (fl : CacheFlags) (L : Nat) (c : ObjectCache) (name : String)
    (info : ObjectCacheInfo) :
    stdmap.find (put fl L c name info).cache_map name =
      some { info := put_info fl
               (match stdmap.find c.cache_map name with
                | none => new_info
                | some e => e.info) info,
             lru_iter := some c.next_node } := by
  unfold put
  simp only [touch_lru_cache_map, touch_lru_snd, stdmap.find_assign_self,
    find_touch_lru_loop]
  cases hf : stdmap.find c.cache_map name with
  | none => simp [stdmap.find_append_new _ _ _ hf]
  | some e => simp [hf]

theorem put_lru (fl : CacheFlags) (L : Nat) (c : ObjectCache) (name : String)
    (info : ObjectCacheInfo) :
    (put fl L c name info).lru.getLast? = some (c.next_node, name) := by
  unfold put
  simp [touch_lru_lru]

theorem get_of_find_none (L : Nat) (c : ObjectCache) (name : String)
    (info : ObjectCacheInfo) (mask : Nat) (h : stdmap.find c.cache_map name = none) :
    get L c name info mask = (-ENOENT, info, c) := by
  simp [get, h]

theorem get_of_find_some (L : Nat) (c : ObjectCache) (name : String)
    (info : ObjectCacheInfo) (mask : Nat) (e : ObjectCacheEntry)
    (h : stdmap.find c.cache_map name = some e) :
    (get L c name info mask).1 = (if e.info.flags &&& mask ≠ mask then -ENOENT else 0) ∧
    (get L c name info mask).2.1 = (if e.info.flags &&& mask ≠ mask then info else e.info) ∧
    stdmap.find (get L c name info mask).2.2.cache_map name =
      some { e with lru_iter := some c.next_node } ∧
    (get L c name info mask).2.2.lru.getLast? = some (c.next_node, name) := by
  unfold get
  simp only [h]
  split_ifs <;>
    simp [touch_lru_cache_map, touch_lru_snd, stdmap.find_assign_self,
      find_touch_lru_loop, touch_lru_lru, h]

end ObjectCache
namespace ObjectCache

/-! ### `put` followed by `get` -/

/-- C21. After `put(name, info)` with a non-negative status and without
`CACHE_FLAG_META` in `info.flags`, the entry of `name` has no meta flag, and a
`get(name, mask)` whose mask asks for meta returns `-ENOENT`, whatever was
cached for `name` before. -/
theorem put_resets_meta (fl : CacheFlags) (hM : fl.CACHE_FLAG_META < 2 ^ 32) (L : Nat)
    (c : ObjectCache) (name : String) (info : ObjectCacheInfo)
    (hs : 0 ≤ info.status) (hm : info.flags &&& fl.CACHE_FLAG_META = 0) :
    (∃ e, stdmap.find (put fl L c name info).cache_map name = some e ∧
      e.info.flags &&& fl.CACHE_FLAG_META = 0) ∧
    (∀ mask out, mask &&& fl.CACHE_FLAG_META ≠ 0 →
      (get L (put fl L c name info) name out mask).1 = -ENOENT) := by
  have hfind := put_find fl L c name info
  have hflags : ∀ target, (put_info fl target info).flags &&& fl.CACHE_FLAG_META = 0 := by
    intro target
    rw [put_info_flags fl target info hs, if_neg (by simpa using hm)]
    exact and_not32_and_self _ _ hM
  refine ⟨⟨_, hfind, hflags _⟩, fun mask out hmask => ?_⟩
  rw [(get_of_find_some L _ name out mask _ hfind).1,
    if_pos (and_ne_of_disjoint _ mask _ (hflags _) hmask)]

/-- Witness for C21: `a` has its meta cached, then data alone is put. -/
theorem put_resets_meta_witness :
    flags1248.CACHE_FLAG_META < 2 ^ 32 ∧ 0 ≤ info_data.status ∧
    info_data.flags &&& flags1248.CACHE_FLAG_META = 0 ∧
    (get 1 cache_abc "a" new_info 4).1 = 0 ∧
    (get 1 (put flags1248 1 cache_abc "a" info_data) "a" new_info 4).1 = -ENOENT :=
  ⟨by decide, by decide, by decide, by decide,
   (put_resets_meta flags1248 (by decide) 1 cache_abc "a" info_data (by decide)
     (by decide)).2 4 new_info (by decide)⟩

/-- C22. `put(name, info)` leaves `name` in `cache_map` and at the back of `lru`;
so does `get(name, mask)` when `name` is cached. This holds for every cache and
every limit, hence also when `lru` is over the limit with `name` at its front. -/
theorem touch_never_evicts (fl : CacheFlags) (L : Nat) (c : ObjectCache) (name : String)
    (info out : ObjectCacheInfo) (mask : Nat) :
    ((stdmap.find (put fl L c name info).cache_map name).isSome = true ∧
      ((put fl L c name info).lru.getLast?).map Prod.snd = some name) ∧
    ((stdmap.find c.cache_map name).isSome = true →
      (stdmap.find (get L c name out mask).2.2.cache_map name).isSome = true ∧
      ((get L c name out mask).2.2.lru.getLast?).map Prod.snd = some name) := by
  refine ⟨⟨?_, ?_⟩, fun h => ?_⟩
  · rw [put_find]
    rfl
  · rw [put_lru]
    rfl
  · obtain ⟨e, he⟩ := Option.isSome_iff_exists.mp h
    have hg := get_of_find_some L c name out mask e he
    rw [hg.2.2.1, hg.2.2.2]
    exact ⟨rfl, rfl⟩

/-- Witness for C22 on `cache_abc` with limit 1: `lru` holds three names and `a`
is the oldest; after `get` of `a`, `a` is cached and the newest. -/
theorem touch_never_evicts_witness :
    cache_abc.lru.map Prod.snd = ["a", "b", "c"] ∧
    (stdmap.find (get 1 cache_abc "a" new_info 0).2.2.cache_map "a").isSome = true ∧
    ((get 1 cache_abc "a" new_info 0).2.2.lru.getLast?).map Prod.snd = some "a" :=
  ⟨by decide,
   (touch_never_evicts flags1248 1 cache_abc "a" new_info new_info 0).2 (by decide)⟩

/-- C27. After `put(name, info)` with a non-negative status, `get(name, mask)`
with every bit of `mask` in `info.flags` returns 0 with the status of `info`,
and with its data, xattrs and meta when the matching flag is in `info.flags`.
On any cache, `get` returns `-ENOENT` exactly when the name is not cached or
the cached flags lack a bit of `mask`, and 0 otherwise. -/
theorem put_get_round_trip (fl : CacheFlags) (L : Nat) (c c2 : ObjectCache)
    (name : String) (info out : ObjectCacheInfo) (mask : Nat)
    (hs : 0 ≤ info.status) (hf : info.flags < 2 ^ 32) (hmask : mask &&& info.flags = mask) :
    (get L (put fl L c name info) name out mask).1 = 0 ∧
    (get L (put fl L c name info) name out mask).2.1.status = info.status ∧
    (info.flags &&& fl.CACHE_FLAG_DATA ≠ 0 →
      (get L (put fl L c name info) name out mask).2.1.data = info.data) ∧
    (info.flags &&& fl.CACHE_FLAG_XATTRS ≠ 0 →
      (get L (put fl L c name info) name out mask).2.1.xattrs = info.xattrs) ∧
    (info.flags &&& fl.CACHE_FLAG_META ≠ 0 →
      (get L (put fl L c name info) name out mask).2.1.meta = info.meta) ∧
    ((get L c2 name out mask).1 = -ENOENT ↔
      (stdmap.find c2.cache_map name = none ∨
        ∃ e, stdmap.find c2.cache_map name = some e ∧ e.info.flags &&& mask ≠ mask)) ∧
    ((get L c2 name out mask).1 = -ENOENT ∨ (get L c2 name out mask).1 = 0) := by
  have hfind := put_find fl L c name info
  have hg := get_of_find_some L _ name out mask _ hfind
  have hflags : ∀ target, (put_info fl target info).flags &&& mask = mask := by
    intro target
    rw [put_info_flags fl target info hs]
    split_ifs with hmeta
    · exact or_and_of_subset _ _ _ hmask
    · exact or_and_not32_and_of_subset _ _ _ _ hmask hf (by simpa using hmeta)
  have hret := hg.1
  have hout := hg.2.1
  simp only [hflags, ne_eq, not_true_eq_false, if_false] at hret hout
  refine ⟨hret, ?_, fun hd => ?_, fun hd => ?_, fun hd => ?_, ?_, ?_⟩
  · rw [hout, put_info_status]
  · rw [hout, put_info_data fl _ info hs hd]
  · rw [hout, put_info_xattrs fl _ info hs hd]
  · rw [hout, put_info_meta fl _ info hs hd]
  · cases h2 : stdmap.find c2.cache_map name with
    | none => simp [get_of_find_none L c2 name out mask h2]
    | some e =>
      rw [(get_of_find_some L c2 name out mask e h2).1]
      by_cases hb : e.info.flags &&& mask = mask
      · simp [hb, ENOENT]
      · simp [hb]
  · cases h2 : stdmap.find c2.cache_map name with
    | none => simp [get_of_find_none L c2 name out mask h2]
    | some e =>
      rw [(get_of_find_some L c2 name out mask e h2).1]
      by_cases hb : e.info.flags &&& mask = mask
      · simp [hb]
      · simp [hb]

/-- Witness for C27: data is put for `b` and read back with mask 1. -/
theorem put_get_round_trip_witness :
    0 ≤ info_data.status ∧ info_data.flags < 2 ^ 32 ∧ 1 &&& info_data.flags = 1 ∧
    (get 1 (put flags1248 1 cache_abc "b" info_data) "b" new_info 1).1 = 0 ∧
    (get 1 (put flags1248 1 cache_abc "b" info_data) "b" new_info 1).2.1.data = [9] :=
  have h := put_get_round_trip flags1248 1 cache_abc cache_empty "b" info_data new_info 1
    (by decide) (by decide) (by decide)
  ⟨by decide, by decide, by decide, h.1, h.2.2.1 (by decide)⟩

/-- C28. After `put(name, info)` with a negative status the entry of `name` has
that status, no flag, no xattrs and no data; `get(name, mask)` then returns
`-ENOENT` for every non-zero mask, and `get(name, 0)` returns 0 and hands out
the negative status. -/
theorem put_negative_status (fl : CacheFlags) (L : Nat) (c : ObjectCache) (name : String)
    (info : ObjectCacheInfo) (hs : info.status < 0) :
    (∃ e, stdmap.find (put fl L c name info).cache_map name = some e ∧
      e.info.status = info.status ∧ e.info.flags = 0 ∧ e.info.xattrs = [] ∧
      e.info.data = []) ∧
    (∀ mask out, mask ≠ 0 → (get L (put fl L c name info) name out mask).1 = -ENOENT) ∧
    (∀ out, (get L (put fl L c name info) name out 0).1 = 0 ∧
      (get L (put fl L c name info) name out 0).2.1.status = info.status) := by
  have hfind := put_find fl L c name info
  rw [put_info_negative fl _ info hs] at hfind
  refine ⟨⟨_, hfind, rfl, rfl, rfl, rfl⟩, fun mask out hm => ?_, fun out => ?_⟩
  · rw [(get_of_find_some L _ name out mask _ hfind).1]
    simp [Nat.zero_and, Ne.symm hm]
  · have hg := get_of_find_some L _ name out 0 _ hfind
    rw [hg.1, hg.2.1]
    simp

/-- Witness for C28: a failed lookup of `a` is cached over its meta. -/
theorem put_negative_status_witness :
    info_negative.status < 0 ∧
    (get 1 (put flags1248 1 cache_abc "a" info_negative) "a" new_info 4).1 = -ENOENT ∧
    (get 1 (put flags1248 1 cache_abc "a" info_negative) "a" new_info 0).2.1.status = -2 :=
  have h := put_negative_status flags1248 1 cache_abc "a" info_negative (by decide)
  ⟨by decide, h.2.1 4 new_info (by decide), ((h.2.2 new_info).2).trans (by decide)⟩

end ObjectCache

namespace stdmap

variable {K V : Type} [DecidableEq K]

theorem keys_assign (m : List (K × V)) (k : K) (v : V) :
    (assign m k v).map Prod.fst = m.map Prod.fst := by
  simp only [assign, List.map_map]
  apply List.map_congr_left
  intro e _
  by_cases h : e.1 = k <;> simp [h]

theorem mem_assign (m : List (K × V)) (k : K) (v : V) (e : K × V)
    (h : e ∈ assign m k v) : (e.1 = k ∧ e.2 = v) ∨ (e.1 ≠ k ∧ e ∈ m) := by
  simp only [assign, List.mem_map] at h
  obtain ⟨e0, he0, heq⟩ := h
  by_cases hk : e0.1 = k
  · rw [if_pos hk] at heq
    rw [← heq]
    exact Or.inl ⟨hk, rfl⟩
  · rw [if_neg hk] at heq
    rw [← heq]
    exact Or.inr ⟨hk, he0⟩

end stdmap

namespace ObjectCache

/-! ### The invariant of the cache -/

theorem fst_unique (l : List (Nat × String)) (h : (l.map Prod.snd).Nodup)
    (a b : Nat) (x : String) (ha : (a, x) ∈ l) (hb : (b, x) ∈ l) : a = b :=
  congrArg Prod.fst (List.inj_on_of_nodup_map h ha hb rfl)

theorem snd_unique (l : List (Nat × String)) (h : (l.map Prod.fst).Nodup)
    (a : Nat) (x y : String) (hx : (a, x) ∈ l) (hy : (a, y) ∈ l) : x = y :=
  congrArg Prod.snd (List.inj_on_of_nodup_map h hx hy rfl)

theorem remove_lru_sublist (lru : List (Nat × String)) (it : Option Nat) :
    (remove_lru lru it).Sublist lru := by
  cases it with
  | none => exact List.Sublist.refl _
  | some n => exact List.filter_sublist _

theorem get_state (L : Nat) (c : ObjectCache) (name : String) (info : ObjectCacheInfo)
    (mask : Nat) (e : ObjectCacheEntry) (h : stdmap.find c.cache_map name = some e) :
    (get L c name info mask).2.2 = touched L c c.cache_map name e.lru_iter e.info := by
  unfold get touched
  simp only [h]
  split_ifs <;>
    simp [touch_lru_cache_map, touch_lru_snd, touch_lru_lru, touch_lru_next_node]

theorem put_state_new (fl : CacheFlags) (L : Nat) (c : ObjectCache) (name : String)
    (info : ObjectCacheInfo) (h : stdmap.find c.cache_map name = none) :
    put fl L c name info =
      touched L c (c.cache_map ++ [(name, { info := new_info, lru_iter := none })]) name
        none (put_info fl new_info info) := by
  unfold put touched
  simp [h, stdmap.find_append_new _ _ _ h, touch_lru_cache_map, touch_lru_snd,
    touch_lru_lru, touch_lru_next_node]

theorem put_state_old (fl : CacheFlags) (L : Nat) (c : ObjectCache) (name : String)
    (info : ObjectCacheInfo) (e : ObjectCacheEntry)
    (h : stdmap.find c.cache_map name = some e) :
    put fl L c name info =
      touched L c c.cache_map name e.lru_iter (put_info fl e.info info) := by
  unfold put touched
  simp [h, touch_lru_cache_map, touch_lru_snd, touch_lru_lru, touch_lru_next_node]

end ObjectCache
namespace ObjectCache

/-- The state left by `touch_lru` and the update of the entry of `name` satisfies
the invariant, when `name` has a key in `cm` and either is new to `lru` (its
iterator is `lru.end()`) or has its node in `lru`. -/
theorem touched_invariant (L : Nat) (c : ObjectCache)
    (cm : List (String × ObjectCacheEntry)) (name : String) (it : Option Nat)
    (i : ObjectCacheInfo)
    (hN : (c.lru.map Prod.snd).Nodup) (hI : (c.lru.map Prod.fst).Nodup)
    (hlt : ∀ node ∈ c.lru, node.1 < c.next_node)
    (hK : (cm.map Prod.fst).Nodup)
    (hit : ∀ e ∈ cm, e.1 ≠ name → ∃ n, e.2.lru_iter = some n ∧ (n, e.1) ∈ c.lru)
    (hc : ∀ node ∈ c.lru, node.2 ∈ cm.map Prod.fst)
    (hname : name ∈ cm.map Prod.fst)
    (hsz : c.lru.length ≤ L + 1)
    (hcase : (it = none ∧ name ∉ c.lru.map Prod.snd) ∨
      ∃ n, it = some n ∧ (n, name) ∈ c.lru) :
    lru_invariant L (touched L c cm name it i) := by
  obtain ⟨ev, hsplit, hcm, hnot, hstop⟩ := touch_lru_loop_spec L name c.lru cm
  have hl : (touched L c cm name it i).lru =
      remove_lru (touch_lru_loop L name c.lru cm).1 it ++ [(c.next_node, name)] := rfl
  have hm : (touched L c cm name it i).cache_map =
      stdmap.assign (touch_lru_loop L name c.lru cm).2 name
        { info := i, lru_iter := some c.next_node } := rfl
  have hn : (touched L c cm name it i).next_node = c.next_node + 1 := rfl
  generalize (touch_lru_loop L name c.lru cm).1 = B at hsplit hstop hl
  generalize (touch_lru_loop L name c.lru cm).2 = X at hcm hm
  have hBsub : ∀ node ∈ B, node ∈ c.lru := fun node h => by
    rw [hsplit]
    exact List.mem_append_right _ h
  have hFsub : (remove_lru B it).Sublist B := remove_lru_sublist B it
  have hFlru : (remove_lru B it).Sublist c.lru := by
    rw [hsplit]
    exact hFsub.trans (List.sublist_append_right _ _)
  have hNsplit : ((ev.map Prod.snd) ++ (B.map Prod.snd)).Nodup := by
    rw [← List.map_append, ← hsplit]
    exact hN
  have hdisj : ∀ node ∈ B, node.2 ∉ ev.map Prod.snd := fun node h h2 =>
    (List.nodup_append.mp hNsplit).2.2 h2 (List.mem_map_of_mem Prod.snd h)
  have hinB : ∀ node ∈ c.lru, node.2 ∉ ev.map Prod.snd → node ∈ B := fun node h h2 => by
    rw [hsplit] at h
    rcases List.mem_append.mp h with h3 | h3
    · exact absurd (List.mem_map_of_mem Prod.snd h3) h2
    · exact h3
  have hXmem : ∀ e, e ∈ X ↔ e ∈ cm ∧ e.1 ∉ ev.map Prod.snd := fun e => by
    rw [hcm, List.mem_filter]
    simp
  have hnameF : ∀ m, (m, name) ∉ remove_lru B it := by
    intro m hmem
    rcases hcase with ⟨_, h2⟩ | ⟨n, h1, h2⟩
    · exact h2 (List.mem_map_of_mem Prod.snd (hFlru.subset hmem))
    · rw [h1] at hmem
      simp only [remove_lru, List.mem_filter] at hmem
      have := fst_unique c.lru hN m n name (hBsub _ hmem.1) h2
      simp [this] at hmem
  have hinF : ∀ m k, (m, k) ∈ B → k ≠ name → (m, k) ∈ remove_lru B it := by
    intro m k hmem hk
    rcases hcase with ⟨h1, _⟩ | ⟨n, h1, h2⟩
    · rw [h1]
      exact hmem
    · rw [h1]
      simp only [remove_lru, List.mem_filter]
      refine ⟨hmem, ?_⟩
      have hmn : m ≠ n := fun e =>
        hk (snd_unique c.lru hI n k name (e ▸ hBsub _ hmem) h2)
      simpa using hmn
  have hlenF : (remove_lru B it).length ≤ L := by
    rcases hcase with ⟨h1, h2⟩ | ⟨n, h1, h2⟩
    · rw [h1]
      rcases hstop with h3 | h3
      · exact h3
      · exfalso
        cases B with
        | nil => simp at h3
        | cons b rest =>
          simp only [List.head?_cons, Option.map_some', Option.some.injEq] at h3
          exact h2 (List.mem_map.mpr ⟨b, hBsub b (List.mem_cons_self _ _), h3⟩)
    · have hnB : (n, name) ∈ B := hinB _ h2 hnot
      have hlt2 : (B.filter (fun node => decide (node.1 ≠ n))).length < B.length :=
        List.length_filter_lt_length_iff_exists.mpr ⟨(n, name), hnB, by simp⟩
      have hBle : B.length ≤ c.lru.length := by
        rw [hsplit, List.length_append]
        exact Nat.le_add_left _ _
      rw [h1]
      simp only [remove_lru]
      omega
  refine ⟨?_, ?_, ?_, ?_, ?_, ?_, ?_⟩
  · rw [hl, List.map_append]
    refine List.Nodup.append ((hFlru.map Prod.snd).nodup hN) (List.nodup_singleton _) ?_
    intro x hx1 hx2
    have hxn : x = name := by simpa using hx2
    obtain ⟨node, hnode, hnx⟩ := List.mem_map.mp hx1
    exact hnameF node.1 (by rw [← hxn, ← hnx]; exact hnode)
  · rw [hl, List.map_append]
    refine List.Nodup.append ((hFlru.map Prod.fst).nodup hI) (List.nodup_singleton _) ?_
    intro x hx1 hx2
    have hxn : x = c.next_node := by simpa using hx2
    obtain ⟨node, hnode, hnx⟩ := List.mem_map.mp hx1
    have := hlt node (hFlru.subset hnode)
    omega
  · intro node hnode
    rw [hl] at hnode
    rw [hn]
    rcases List.mem_append.mp hnode with h1 | h1
    · exact Nat.lt_succ_of_lt (hlt node (hFlru.subset h1))
    · have : node = (c.next_node, name) := by simpa using h1
      rw [this]
      exact Nat.lt_succ_self _
  · rw [hm, stdmap.keys_assign, hcm]
    exact ((List.filter_sublist _).map Prod.fst).nodup hK
  · intro e he
    rw [hm] at he
    rw [hl]
    rcases stdmap.mem_assign X name _ e he with ⟨h1, h2⟩ | ⟨h1, h2⟩
    · refine ⟨c.next_node, by rw [h2], ?_⟩
      rw [h1]
      exact List.mem_append_right _ (List.mem_singleton_self _)
    · obtain ⟨h3, h4⟩ := (hXmem e).mp h2
      obtain ⟨m, hm1, hm2⟩ := hit e h3 h1
      exact ⟨m, hm1, List.mem_append_left _ (hinF m e.1 (hinB _ hm2 h4) h1)⟩
  · intro node hnode
    rw [hl] at hnode
    rw [hm, stdmap.keys_assign]
    rcases List.mem_append.mp hnode with h1 | h1
    · have h2 := hFsub.subset h1
      obtain ⟨e, he, hek⟩ := List.mem_map.mp (hc node (hBsub node h2))
      exact List.mem_map.mpr ⟨e, (hXmem e).mpr ⟨he, by rw [hek]; exact hdisj node h2⟩, hek⟩
    · have : node = (c.next_node, name) := by simpa using h1
      rw [this]
      obtain ⟨e, he, hek⟩ := List.mem_map.mp hname
      exact List.mem_map.mpr ⟨e, (hXmem e).mpr ⟨he, by rw [hek]; exact hnot⟩, hek⟩
  · rw [hl, List.length_append, List.length_singleton]
    omega

end ObjectCache
namespace ObjectCache

theorem find_none_not_mem_keys (cm : List (String × ObjectCacheEntry)) (name : String)
    (h : stdmap.find cm name = none) : name ∉ cm.map Prod.fst := by
  intro hmem
  have := (stdmap.find_isSome_iff cm name).mpr hmem
  rw [h] at this
  exact absurd this (by simp)

theorem touched_old_invariant (L : Nat) (c : ObjectCache) (name : String)
    (e : ObjectCacheEntry) (i : ObjectCacheInfo) (hinv : lru_invariant L c)
    (h : stdmap.find c.cache_map name = some e) :
    lru_invariant L (touched L c c.cache_map name e.lru_iter i) := by
  have hmem := stdmap.find_mem _ _ _ h
  obtain ⟨n, hn1, hn2⟩ := hinv.iter_ok _ hmem
  exact touched_invariant L c c.cache_map name e.lru_iter i hinv.names_nodup
    hinv.nodes_nodup hinv.nodes_lt hinv.keys_nodup (fun e' he' _ => hinv.iter_ok e' he')
    hinv.lru_cached (List.mem_map.mpr ⟨_, hmem, rfl⟩) hinv.size_le (Or.inr ⟨n, hn1, hn2⟩)

theorem touched_new_invariant (L : Nat) (c : ObjectCache) (name : String)
    (i : ObjectCacheInfo) (hinv : lru_invariant L c)
    (h : stdmap.find c.cache_map name = none) :
    lru_invariant L
      (touched L c (c.cache_map ++ [(name, { info := new_info, lru_iter := none })]) name
        none i) := by
  have hnk := find_none_not_mem_keys _ _ h
  refine touched_invariant L c _ name none i hinv.names_nodup hinv.nodes_nodup
    hinv.nodes_lt ?_ ?_ ?_ ?_ hinv.size_le (Or.inl ⟨rfl, ?_⟩)
  · rw [List.map_append]
    refine List.Nodup.append hinv.keys_nodup (List.nodup_singleton _) ?_
    intro x hx1 hx2
    have hx : x = name := by simpa using hx2
    exact hnk (hx ▸ hx1)
  · intro e he hne
    rcases List.mem_append.mp he with h1 | h1
    · exact hinv.iter_ok e h1
    · have : e = (name, { info := new_info, lru_iter := none }) := by simpa using h1
      exact absurd (by rw [this]) hne
  · intro node hnode
    rw [List.map_append]
    exact List.mem_append_left _ (hinv.lru_cached node hnode)
  · rw [List.map_append]
    exact List.mem_append_right _ (by simp)
  · intro hmem
    obtain ⟨node, hnode, hnn⟩ := List.mem_map.mp hmem
    exact hnk (hnn ▸ hinv.lru_cached node hnode)

theorem remove_invariant (L : Nat) (c : ObjectCache) (name : String)
    (hinv : lru_invariant L c) : lru_invariant L (remove c name) := by
  unfold remove
  cases h : stdmap.find c.cache_map name with
  | none => exact hinv
  | some e =>
    have hmem := stdmap.find_mem _ _ _ h
    obtain ⟨n, hn1, hn2⟩ := hinv.iter_ok _ hmem
    have hsub : (remove_lru c.lru e.lru_iter).Sublist c.lru := remove_lru_sublist _ _
    have hfilter : remove_lru c.lru e.lru_iter =
        c.lru.filter (fun node => decide (node.1 ≠ n)) := by
      simp only at hn1
      rw [hn1]
      rfl
    refine ⟨?_, ?_, ?_, ?_, ?_, ?_, ?_⟩
    · exact (hsub.map Prod.snd).nodup hinv.names_nodup
    · exact (hsub.map Prod.fst).nodup hinv.nodes_nodup
    · exact fun node hnode => hinv.nodes_lt node (hsub.subset hnode)
    · exact ((List.filter_sublist _).map Prod.fst).nodup hinv.keys_nodup
    · intro e' he'
      simp only [stdmap.erase, List.mem_filter, decide_eq_true_eq] at he'
      obtain ⟨m, hm1, hm2⟩ := hinv.iter_ok e' he'.1
      refine ⟨m, hm1, ?_⟩
      show (m, e'.1) ∈ remove_lru c.lru e.lru_iter
      rw [hfilter, List.mem_filter]
      refine ⟨hm2, ?_⟩
      have hmn : m ≠ n := fun heq =>
        he'.2 (snd_unique c.lru hinv.nodes_nodup n e'.1 name (heq ▸ hm2) hn2)
      simpa using hmn
    · intro node hnode
      have hnode2 : node ∈ c.lru.filter (fun node => decide (node.1 ≠ n)) := by
        rw [← hfilter]
        exact hnode
      rw [List.mem_filter] at hnode2
      have hne : node.1 ≠ n := by simpa using hnode2.2
      obtain ⟨e', he', hek⟩ := List.mem_map.mp (hinv.lru_cached node hnode2.1)
      refine List.mem_map.mpr ⟨e', ?_, hek⟩
      simp only [stdmap.erase, List.mem_filter, decide_eq_true_eq]
      refine ⟨he', fun heq => hne ?_⟩
      have h1 : (node.1, name) ∈ c.lru := by
        have : node = (node.1, name) := by rw [← heq, hek]
        rw [← this]
        exact hnode2.1
      exact fst_unique c.lru hinv.names_nodup node.1 n name h1 hn2
    · exact le_trans hsub.length_le hinv.size_le

theorem apply_call_invariant (fl : CacheFlags) (L : Nat) (c : ObjectCache)
    (call : CacheCall) (hinv : lru_invariant L c) :
    lru_invariant L (apply_call fl L c call) := by
  cases call with
  | get name mask =>
    simp only [apply_call]
    cases h : stdmap.find c.cache_map name with
    | none =>
      rw [get_of_find_none L c name new_info mask h]
      exact hinv
    | some e =>
      rw [get_state L c name new_info mask e h]
      exact touched_old_invariant L c name e _ hinv h
  | put name info =>
    simp only [apply_call]
    cases h : stdmap.find c.cache_map name with
    | none =>
      rw [put_state_new fl L c name info h]
      exact touched_new_invariant L c name _ hinv h
    | some e =>
      rw [put_state_old fl L c name info e h]
      exact touched_old_invariant L c name e _ hinv h
  | remove name => exact remove_invariant L c name hinv

theorem run_invariant (fl : CacheFlags) (L : Nat) (calls : List CacheCall)
    (c : ObjectCache) (hinv : lru_invariant L c) :
    lru_invariant L (run fl L c calls) := by
  induction calls generalizing c with
  | nil => exact hinv
  | cons call rest ih => exact ih _ (apply_call_invariant fl L c call hinv)

theorem cache_empty_invariant (L : Nat) : lru_invariant L cache_empty :=
  ⟨List.nodup_nil, List.nodup_nil, fun _ h => absurd h (List.not_mem_nil _),
   List.nodup_nil, fun _ h => absurd h (List.not_mem_nil _),
   fun _ h => absurd h (List.not_mem_nil _), Nat.zero_le _⟩

/-- C29. With a constant limit `L`, starting from the empty cache and after any
sequence of `get`, `put` and `remove` calls: `lru` holds no name twice, the names
in `lru` are the keys of `cache_map`, every entry's `lru_iter` designates a node
of `lru` holding the entry's name (and no other name sits on that node), and at
most `L + 1` entries are cached. On any cache, what the loop of `touch_lru`
evicts is a front segment of `lru`, together with the cache entries of those
names. -/
theorem lru_invariant_from_empty (fl : CacheFlags) (L : Nat) (calls : List CacheCall)
    (name : String) (lru : List (Nat × String)) (cm : List (String × ObjectCacheEntry)) :
    ((run fl L cache_empty calls).lru.map Prod.snd).Nodup ∧
    (∀ n, n ∈ (run fl L cache_empty calls).lru.map Prod.snd ↔
      n ∈ (run fl L cache_empty calls).cache_map.map Prod.fst) ∧
    (∀ e ∈ (run fl L cache_empty calls).cache_map,
      ∃ n, e.2.lru_iter = some n ∧ (n, e.1) ∈ (run fl L cache_empty calls).lru ∧
        ∀ other, (n, other) ∈ (run fl L cache_empty calls).lru → other = e.1) ∧
    (run fl L cache_empty calls).cache_map.length ≤ L + 1 ∧
    (∃ evicted, lru = evicted ++ (touch_lru_loop L name lru cm).1 ∧
      (touch_lru_loop L name lru cm).2 =
        cm.filter (fun e => decide (e.1 ∉ evicted.map Prod.snd))) := by
  have hinv := run_invariant fl L calls cache_empty (cache_empty_invariant L)
  have hiff : ∀ n, n ∈ (run fl L cache_empty calls).lru.map Prod.snd ↔
      n ∈ (run fl L cache_empty calls).cache_map.map Prod.fst := by
    intro n
    constructor
    · intro h
      obtain ⟨node, hnode, hnn⟩ := List.mem_map.mp h
      exact hnn ▸ hinv.lru_cached node hnode
    · intro h
      obtain ⟨e, he, hek⟩ := List.mem_map.mp h
      obtain ⟨m, _, hm2⟩ := hinv.iter_ok e he
      exact List.mem_map.mpr ⟨(m, e.1), hm2, hek⟩
  have hperm := (List.perm_ext_iff_of_nodup hinv.names_nodup hinv.keys_nodup).mpr hiff
  have hlen : (run fl L cache_empty calls).cache_map.length =
      (run fl L cache_empty calls).lru.length := by
    have := hperm.length_eq
    simpa using this.symm
  refine ⟨hinv.names_nodup, hiff, fun e he => ?_, ?_, ?_⟩
  · obtain ⟨n, hn1, hn2⟩ := hinv.iter_ok e he
    exact ⟨n, hn1, hn2, fun other ho =>
      snd_unique _ hinv.nodes_nodup n other e.1 ho hn2⟩
  · rw [hlen]
    exact hinv.size_le
  · obtain ⟨ev, h1, h2, _, _⟩ := touch_lru_loop_spec L name lru cm
    exact ⟨ev, h1, h2⟩

end ObjectCache
